import Mathlib

/-!
# Verification of the Tetra DNS record manager

A shallow embedding, in Lean 4, of the core logic of the Tetra DNS record
manager (`tetra/dnsutils.py` and `tetra/tetra.py`): the DNS record model,
the three-way reconciler `cross_compare`, the duplicate-CNAME validator
`assert_cname_unique`, the apex-CNAME flattening of the top-layer expander,
and the per-host address expansion of the bottom-layer expander.

Machine-level details that are external to the repository (the `ipaddress`
library, the `dns.resolver` library, the provider backends) are modelled as
parameters: IP addresses are carried as already-classified v4/v6 text, and
the DNS resolver is a function argument giving the resolved A/AAAA address
lists of a name.
-/

/-- Record type tag, embedding `RecordType` of `tetra/dnsutils.py`
(a closed enum with values A, AAAA, CNAME). -/
inductive RecordType where
  | A
  | AAAA
  | CNAME
deriving DecidableEq, Repr

/-- DNS record, embedding the `DNSRecord` class of `tetra/dnsutils.py`.
Fields follow the Python constructor: `name`, `type`, `content`, `ttl`,
`line`, `comment`, `id`.  `line` and `comment` are optional strings, `id`
is the optional provider-assigned identifier (`None` for freshly derived
records).  Contents are carried as text; the canonicalization of AAAA
content through `ipaddress.ip_address` is external and the embedding
assumes contents are given in canonical text form. -/
structure DNSRecord where
  name : String
  type : RecordType
  content : String
  ttl : Nat
  line : Option String := none
  comment : Option String := none
  id : Option Nat := none
deriving DecidableEq, Repr

namespace DNSRecord

/-- Full-field equality, embedding `DNSRecord.__eq__`
(`dnsutils.py` lines 55-58): name, type, content, ttl and line are
compared; comment and id are ignored. -/
def eqb (a b : DNSRecord) : Bool :=
  a.name == b.name && a.type == b.type && a.content == b.content &&
    a.ttl == b.ttl && a.line == b.line

/-- Similarity, embedding `DNSRecord.sims` (`dnsutils.py` lines 60-63):
only name and type are compared. -/
def sims (a b : DNSRecord) : Bool :=
  a.name == b.name && a.type == b.type

/-- The tuple of fields that `__eq__` compares. -/
def key (r : DNSRecord) : String × RecordType × String × Nat × Option String :=
  (r.name, r.type, r.content, r.ttl, r.line)

theorem eqb_iff_key {a b : DNSRecord} : eqb a b = true ↔ key a = key b := by
  simp [eqb, key, Prod.ext_iff, and_assoc]

theorem sims_of_eqb {a b : DNSRecord} (h : eqb a b = true) : sims a b = true := by
  simp only [eqb, Bool.and_eq_true] at h
  simp [sims, h.1.1.1.1, h.1.1.1.2]

theorem eqb_refl (a : DNSRecord) : eqb a a = true := by
  simp [eqb]

theorem sims_symm {a b : DNSRecord} (h : sims a b = true) : sims b a = true := by
  simp only [sims, Bool.and_eq_true, beq_iff_eq] at h ⊢
  exact ⟨h.1.symm, h.2.symm⟩

theorem sims_trans {a b c : DNSRecord} (h1 : sims a b = true) (h2 : sims a c = true) :
    sims b c = true := by
  simp only [sims, Bool.and_eq_true, beq_iff_eq] at h1 h2 ⊢
  exact ⟨h1.1 ▸ h2.1, h1.2 ▸ h2.2⟩

end DNSRecord

/-- The key multiset (as a list, compared up to permutation) of a record
list: what "equal as multisets under full-field equality" quantifies. -/
def keysOf (l : List DNSRecord) : List (String × RecordType × String × Nat × Option String) :=
  l.map DNSRecord.key

/-- First pass of `cross_compare` (`dnsutils.py` lines 70-82), the
exact-match pass: each pending record that is fully equal (`__eq__`) to
some record of the old pool removes the first such old record from the
pool; with `force` the pending record adopts that old record's id and is
kept, without `force` the pending record is dropped. -/
def pass1 (force : Bool) : List DNSRecord → List DNSRecord → List DNSRecord × List DNSRecord
  | old, [] => (old, [])
  | old, p :: ps =>
    match old.find? (fun o => p.eqb o) with
    | none =>
      let r := pass1 force old ps
      (r.1, p :: r.2)
    | some o =>
      let r := pass1 force (old.eraseP (fun x => p.eqb x)) ps
      if force then (r.1, { p with id := o.id } :: r.2) else (r.1, r.2)

/-- Second pass of `cross_compare` (`dnsutils.py` lines 83-92), the
similarity pass: each remaining pending record scans the remaining old
pool in order for the first record with the same (name, type), adopts its
id, and removes it (Python `list.remove`, i.e. the first `__eq__`-equal
element) from the pool. -/
def pass2 : List DNSRecord → List DNSRecord → List DNSRecord × List DNSRecord
  | old, [] => (old, [])
  | old, p :: ps =>
    match old.find? (fun o => p.sims o) with
    | none =>
      let r := pass2 old ps
      (r.1, p :: r.2)
    | some o =>
      let r := pass2 (old.eraseP (fun x => x.eqb o)) ps
      (r.1, { p with id := o.id } :: r.2)

/-- The reconciler, embedding `cross_compare` (`dnsutils.py` lines 66-97).
Returns `(adding, updating, deleting)`: pending records that ended with no
id, pending records that adopted an id, and the old records never
consumed. -/
def cross_compare (old_records pending_records : List DNSRecord) (force : Bool) :
    List DNSRecord × List DNSRecord × List DNSRecord :=
  let r1 := pass1 force old_records pending_records
  let r2 := pass2 r1.1 r1.2
  (r2.2.filter (fun p => p.id.isNone),
   r2.2.filter (fun p => p.id.isSome),
   r2.1)

/-- Application of a reconciler changeset to the live record list, as the
spec words it: every live record whose id appears in `updating` is
replaced by that updating record, every `deleting` record is removed (live
records are identified by their ids), and every `adding` record is
inserted. -/
def applyChanges (live adding updating deleting : List DNSRecord) : List DNSRecord :=
  live.filter
      (fun l => updating.all (fun u => !(u.id == l.id)) &&
        deleting.all (fun d => !(d.id == l.id)))
    ++ updating ++ adding

open scoped List

/-- If `find?` locates `o` and `q` is a predicate implying `p` that holds
at `o`, then erasing by `q` removes exactly one occurrence of `o`:
the list is a permutation of `o` consed onto the erased list. -/
theorem perm_cons_eraseP_of_find? {α : Type} {l : List α} {p q : α → Bool} {o : α}
    (hf : l.find? p = some o) (himp : ∀ x, q x = true → p x = true)
    (hq : q o = true) : l ~ o :: l.eraseP q := by
  induction l with
  | nil => simp at hf
  | cons a t ih =>
    by_cases hpa : p a = true
    · rw [List.find?_cons_of_pos _ hpa, Option.some_inj] at hf
      subst hf
      rw [List.eraseP_cons_of_pos hq]
    · rw [List.find?_cons_of_neg _ (by simpa using hpa)] at hf
      have hqa : q a = false := by
        cases hqa : q a with
        | true => exact absurd (himp a hqa) hpa
        | false => rfl
      rw [List.eraseP_cons_of_neg (by simp [hqa])]
      exact ((ih hf).cons a).trans (List.Perm.swap o a _)

/-- Relation tracing the exact-match pass under `force=false`
(`dnsutils.py` lines 70-82): each pending record is either kept unchanged
or dropped together with a fully-equal consumed old record. -/
inductive DropRel : List DNSRecord → List DNSRecord → List DNSRecord → Prop where
  | nil : DropRel [] [] []
  | keep (p : DNSRecord) {ps qs C : List DNSRecord} :
      DropRel ps qs C → DropRel (p :: ps) (p :: qs) C
  | drop (p o : DNSRecord) {ps qs C : List DNSRecord} :
      p.eqb o = true → DropRel ps qs C → DropRel (p :: ps) qs (o :: C)

/-- Relation tracing an id-adopting pass (the exact-match pass under
`force=true`, and the similarity pass): each pending record is either kept
unchanged or, when similar to a consumed old record, adopts its id. -/
inductive MatchRel : List DNSRecord → List DNSRecord → List DNSRecord → Prop where
  | nil : MatchRel [] [] []
  | keep (p : DNSRecord) {ps qs C : List DNSRecord} :
      MatchRel ps qs C → MatchRel (p :: ps) (p :: qs) C
  | step (p o : DNSRecord) {ps qs C : List DNSRecord} :
      p.sims o = true →
      MatchRel ps qs C → MatchRel (p :: ps) ({ p with id := o.id } :: qs) (o :: C)

theorem pass1_false_spec :
    ∀ (ps old : List DNSRecord),
      ∃ C, old ~ (pass1 false old ps).1 ++ C ∧ DropRel ps (pass1 false old ps).2 C := by
  intro ps
  induction ps with
  | nil => exact fun old => ⟨[], by simp [pass1], DropRel.nil⟩
  | cons p ps ih =>
    intro old
    cases hf : old.find? (fun o => p.eqb o) with
    | none =>
      obtain ⟨C, hperm, hrel⟩ := ih old
      exact ⟨C, by simp only [pass1, hf]; exact hperm,
        by simpa only [pass1, hf] using DropRel.keep p hrel⟩
    | some o =>
      obtain ⟨C, hperm, hrel⟩ := ih (old.eraseP (fun x => p.eqb x))
      have he : old ~ o :: old.eraseP (fun x => p.eqb x) :=
        perm_cons_eraseP_of_find? hf (fun x h => h) (List.find?_some hf)
      refine ⟨o :: C, ?_, ?_⟩
      · simp only [pass1, hf]
        exact (he.trans (hperm.cons o)).trans List.perm_middle.symm
      · simp only [pass1, hf]
        exact DropRel.drop p o (List.find?_some hf) hrel

theorem pass1_true_spec :
    ∀ (ps old : List DNSRecord),
      ∃ C, old ~ (pass1 true old ps).1 ++ C ∧ MatchRel ps (pass1 true old ps).2 C := by
  intro ps
  induction ps with
  | nil => exact fun old => ⟨[], by simp [pass1], MatchRel.nil⟩
  | cons p ps ih =>
    intro old
    cases hf : old.find? (fun o => p.eqb o) with
    | none =>
      obtain ⟨C, hperm, hrel⟩ := ih old
      exact ⟨C, by simp only [pass1, hf]; exact hperm,
        by simpa only [pass1, hf] using MatchRel.keep p hrel⟩
    | some o =>
      obtain ⟨C, hperm, hrel⟩ := ih (old.eraseP (fun x => p.eqb x))
      have he : old ~ o :: old.eraseP (fun x => p.eqb x) :=
        perm_cons_eraseP_of_find? hf (fun x h => h) (List.find?_some hf)
      refine ⟨o :: C, ?_, ?_⟩
      · simp only [pass1, hf]
        exact (he.trans (hperm.cons o)).trans List.perm_middle.symm
      · simp only [pass1, hf]
        exact MatchRel.step p o (DNSRecord.sims_of_eqb (List.find?_some hf)) hrel

theorem pass2_spec :
    ∀ (ps old : List DNSRecord),
      ∃ C, old ~ (pass2 old ps).1 ++ C ∧ MatchRel ps (pass2 old ps).2 C := by
  intro ps
  induction ps with
  | nil => exact fun old => ⟨[], by simp [pass2], MatchRel.nil⟩
  | cons p ps ih =>
    intro old
    cases hf : old.find? (fun o => p.sims o) with
    | none =>
      obtain ⟨C, hperm, hrel⟩ := ih old
      exact ⟨C, by simp only [pass2, hf]; exact hperm,
        by simpa only [pass2, hf] using MatchRel.keep p hrel⟩
    | some o =>
      obtain ⟨C, hperm, hrel⟩ := ih (old.eraseP (fun x => x.eqb o))
      have hsims : p.sims o = true := List.find?_some hf
      have he : old ~ o :: old.eraseP (fun x => x.eqb o) := by
        refine perm_cons_eraseP_of_find? hf ?_ (DNSRecord.eqb_refl o)
        intro x hx
        exact DNSRecord.sims_trans (DNSRecord.sims_symm hsims)
          (DNSRecord.sims_symm (DNSRecord.sims_of_eqb hx))
      refine ⟨o :: C, ?_, ?_⟩
      · simp only [pass2, hf]
        exact (he.trans (hperm.cons o)).trans List.perm_middle.symm
      · simp only [pass2, hf]
        exact MatchRel.step p o hsims hrel

theorem DropRel.mem_of_mem {ps qs C : List DNSRecord} (h : DropRel ps qs C) :
    ∀ q ∈ qs, q ∈ ps := by
  induction h with
  | nil => simp
  | keep p _ ih =>
    intro q hq
    rcases List.mem_cons.1 hq with rfl | hq
    · exact List.mem_cons_self _ _
    · exact List.mem_cons_of_mem _ (ih q hq)
  | drop p o _ _ ih =>
    intro q hq
    exact List.mem_cons_of_mem _ (ih q hq)

theorem DropRel.keys_perm {ps qs C : List DNSRecord} (h : DropRel ps qs C) :
    keysOf ps ~ keysOf qs ++ keysOf C := by
  induction h with
  | nil => simp [keysOf]
  | keep p _ ih => simpa [keysOf] using ih.cons p.key
  | drop p o heq _ ih =>
    have hk : p.key = o.key := DNSRecord.eqb_iff_key.1 heq
    calc keysOf (p :: _) = p.key :: keysOf _ := rfl
    _ ~ p.key :: (keysOf _ ++ keysOf _) := ih.cons p.key
    _ ~ keysOf _ ++ p.key :: keysOf _ := List.perm_middle.symm
    _ = keysOf _ ++ keysOf (o :: _) := by rw [hk]; rfl

theorem MatchRel.keysOf_eq {ps qs C : List DNSRecord} (h : MatchRel ps qs C) :
    keysOf qs = keysOf ps := by
  induction h with
  | nil => rfl
  | keep p _ ih => simp [keysOf] at ih ⊢; exact ih
  | step p o _ _ ih =>
    show ({ p with id := o.id } : DNSRecord).key :: keysOf _ = p.key :: keysOf _
    rw [show ({ p with id := o.id } : DNSRecord).key = p.key from rfl]
    simp [keysOf] at ih ⊢
    exact ih

theorem MatchRel.some_from {ps qs C : List DNSRecord} (h : MatchRel ps qs C)
    (hnone : ∀ p ∈ ps, p.id = none) :
    ∀ q ∈ qs, q.id.isSome = true → ∃ o ∈ C, q.id = o.id ∧ q.sims o = true := by
  induction h with
  | nil => simp
  | keep p _ ih =>
    intro q hq hs
    rcases List.mem_cons.1 hq with rfl | hq
    · rw [hnone q (List.mem_cons_self _ _)] at hs
      simp at hs
    · exact ih (fun p' hp' => hnone p' (List.mem_cons_of_mem _ hp')) q hq hs
  | step p o hsims _ ih =>
    intro q hq hs
    rcases List.mem_cons.1 hq with rfl | hq
    · exact ⟨o, List.mem_cons_self _ _, rfl, hsims⟩
    · obtain ⟨o', ho', hid, hsims'⟩ :=
        ih (fun p' hp' => hnone p' (List.mem_cons_of_mem _ hp')) q hq hs
      exact ⟨o', List.mem_cons_of_mem _ ho', hid, hsims'⟩

/-- Id accounting for an id-adopting pass: when every consumed old record
carries an id and no already-id-carrying pending record is similar to any
consumed old record (so no id is ever overwritten), the ids of the
id-carrying output records are, up to permutation, the ids carried on
input plus the ids of the consumed old records. -/
theorem MatchRel.ids_perm {ps qs C : List DNSRecord} (h : MatchRel ps qs C)
    (hC : ∀ o ∈ C, o.id.isSome = true)
    (hno : ∀ p ∈ ps, ∀ o ∈ C, p.id.isSome = true → p.sims o = false) :
    (qs.filter (fun q => q.id.isSome)).map (fun q => q.id) ~
      (ps.filter (fun q => q.id.isSome)).map (fun q => q.id) ++ C.map (fun o => o.id) := by
  induction h with
  | nil => simp
  | keep p _ ih =>
    have ih' := ih hC (fun p' hp' o ho => hno p' (List.mem_cons_of_mem _ hp') o ho)
    cases hs : p.id.isSome with
    | true =>
      simp only [List.filter_cons, hs, if_pos rfl, List.map_cons]
      simpa using ih'.cons p.id
    | false =>
      simpa only [List.filter_cons, hs, Bool.false_eq_true, if_neg, ite_false] using ih'
  | step p o hsims hrel ih =>
    have hpnone : p.id.isSome = false := by
      cases hs : p.id.isSome with
      | false => rfl
      | true =>
        have hfalse := hno p (List.mem_cons_self _ _) o (List.mem_cons_self _ _) hs
        rw [hsims] at hfalse
        cases hfalse
    have hoid : o.id.isSome = true := hC o (List.mem_cons_self _ _)
    have ih' := ih (fun o' ho' => hC o' (List.mem_cons_of_mem _ ho'))
      (fun p' hp' o' ho' => hno p' (List.mem_cons_of_mem _ hp') o' (List.mem_cons_of_mem _ ho'))
    have hqid : ({ p with id := o.id } : DNSRecord).id.isSome = true := hoid
    simp only [List.filter_cons, hqid, if_pos rfl, List.map_cons, hpnone, Bool.false_eq_true,
      ite_false]
    show o.id :: _ ~ _ ++ o.id :: _
    exact (ih'.cons o.id).trans List.perm_middle.symm

theorem find?_eqb_of_key_mem {old : List DNSRecord} {p : DNSRecord}
    (hmem : p.key ∈ keysOf old) : ∃ o, old.find? (fun o => p.eqb o) = some o := by
  cases hf : old.find? (fun o => p.eqb o) with
  | some o => exact ⟨o, rfl⟩
  | none =>
    obtain ⟨o, ho, hko⟩ := List.mem_map.1 hmem
    have := List.find?_eq_none.1 hf o ho
    rw [DNSRecord.eqb_iff_key] at this
    exact absurd hko.symm this

/-- When the old pool and the pending list have the same key multiset, the
exact-match pass under `force=false` consumes everything on both sides. -/
theorem pass1_false_total :
    ∀ (ps old : List DNSRecord), keysOf old ~ keysOf ps →
      pass1 false old ps = ([], []) := by
  intro ps
  induction ps with
  | nil =>
    intro old hperm
    have : keysOf old = [] := List.Perm.eq_nil hperm
    have : old = [] := by simpa [keysOf] using this
    simp [this, pass1]
  | cons p ps ih =>
    intro old hperm
    have hmem : p.key ∈ keysOf old := hperm.mem_iff.2 (List.mem_cons_self _ _)
    obtain ⟨o, hf⟩ := find?_eqb_of_key_mem hmem
    have hko : p.key = o.key := DNSRecord.eqb_iff_key.1 (List.find?_some hf)
    have hperm' : keysOf (old.eraseP (fun x => p.eqb x)) ~ keysOf ps := by
      have he : old ~ o :: old.eraseP (fun x => p.eqb x) :=
        perm_cons_eraseP_of_find? hf (fun x h => h) (List.find?_some hf)
      have h1 : keysOf old ~ o.key :: keysOf (old.eraseP (fun x => p.eqb x)) := by
        simpa [keysOf] using he.map DNSRecord.key
      have h2 := h1.symm.trans hperm
      rw [show keysOf (p :: ps) = p.key :: keysOf ps from rfl, hko] at h2
      exact h2.cons_inv
    simp [pass1, hf, ih _ hperm']

/-- When the old pool and the pending list have the same key multiset and
every old record carries an id, the exact-match pass under `force=true`
consumes the whole pool and stamps each pending record with the id of a
fully-equal old record. -/
theorem pass1_true_total :
    ∀ (ps old : List DNSRecord), keysOf old ~ keysOf ps →
      (∀ o ∈ old, o.id.isSome = true) →
      (pass1 true old ps).1 = [] ∧
      keysOf (pass1 true old ps).2 = keysOf ps ∧
      (pass1 true old ps).2.length = ps.length ∧
      ∀ q ∈ (pass1 true old ps).2, q.id.isSome = true ∧
        ∃ o ∈ old, q.id = o.id ∧ o.key = q.key := by
  intro ps
  induction ps with
  | nil =>
    intro old hperm _
    have : keysOf old = [] := List.Perm.eq_nil hperm
    have : old = [] := by simpa [keysOf] using this
    simp [this, pass1]
  | cons p ps ih =>
    intro old hperm hid
    have hmem : p.key ∈ keysOf old := hperm.mem_iff.2 (List.mem_cons_self _ _)
    obtain ⟨o, hf⟩ := find?_eqb_of_key_mem hmem
    have hko : p.key = o.key := DNSRecord.eqb_iff_key.1 (List.find?_some hf)
    have homem : o ∈ old := List.mem_of_find?_eq_some hf
    have hsub : (old.eraseP (fun x => p.eqb x)).Sublist old := List.eraseP_sublist _
    have hperm' : keysOf (old.eraseP (fun x => p.eqb x)) ~ keysOf ps := by
      have he : old ~ o :: old.eraseP (fun x => p.eqb x) :=
        perm_cons_eraseP_of_find? hf (fun x h => h) (List.find?_some hf)
      have h1 : keysOf old ~ o.key :: keysOf (old.eraseP (fun x => p.eqb x)) := by
        simpa [keysOf] using he.map DNSRecord.key
      have h2 := h1.symm.trans hperm
      rw [show keysOf (p :: ps) = p.key :: keysOf ps from rfl, hko] at h2
      exact h2.cons_inv
    obtain ⟨ih1, ih2, ih3, ih4⟩ := ih _ hperm' (fun o' ho' => hid o' (hsub.subset ho'))
    refine ⟨?_, ?_, ?_, ?_⟩
    · simp only [pass1, hf, if_pos rfl]
      exact ih1
    · simp only [pass1, hf, if_pos rfl]
      show ({ p with id := o.id } : DNSRecord).key :: keysOf _ = p.key :: keysOf ps
      rw [show ({ p with id := o.id } : DNSRecord).key = p.key from rfl, ih2]
    · simp [pass1, hf, ih3]
    · simp only [pass1, hf, if_pos rfl]
      intro q hq
      rcases List.mem_cons.1 hq with rfl | hq
      · exact ⟨hid o homem, o, homem, rfl, hko.symm⟩
      · obtain ⟨hqs, o', ho', hrest⟩ := ih4 q hq
        exact ⟨hqs, o', hsub.subset ho', hrest⟩

theorem pass2_nil : ∀ ps : List DNSRecord, pass2 [] ps = ([], ps) := by
  intro ps
  induction ps with
  | nil => rfl
  | cons p ps ih => simp [pass2, ih]

/-- C2 (confirmed): for every pair of record lists `live` and `pending`
that are equal as multisets under full-field equality (name, type,
content, ttl, line), `cross_compare live pending force=false` returns
empty adding, updating and deleting lists: a re-run with no drift is a
no-op. -/
theorem claim2_no_drift_noop (live pending : List DNSRecord)
    (h : keysOf live ~ keysOf pending) :
    cross_compare live pending false = ([], [], []) := by
  have h1 := pass1_false_total pending live h
  simp [cross_compare, h1, pass2]

/-- A live record (provider id and ownership comment present). -/
def liveA : DNSRecord :=
  { name := "a", type := .A, content := "1.1.1.1", ttl := 300,
    comment := some "TETRAB 2024", id := some 5 }

/-- A freshly derived pending record with the same compared fields as
`liveA` but no id. -/
def pendA : DNSRecord :=
  { name := "a", type := .A, content := "1.1.1.1", ttl := 300 }

theorem claim2_no_drift_noop_witness :
    (keysOf [liveA] ~ keysOf [pendA]) ∧
    cross_compare [liveA] [pendA] false = ([], [], []) :=
  ⟨by decide, claim2_no_drift_noop _ _ (by decide)⟩

/-- C3 (corrected): when `live` and `pending` are equal as key multisets
and additionally every live record carries an id, `cross_compare` with
`force=true` returns empty adding and deleting lists and an updating list
of the size of the overlap (all of pending), each updating record carrying
the id of a fully-equal live record.  (Without the id hypothesis a live
record with no id leaves its exact match in `adding` instead, see the
counterexample.) -/
theorem claim3_force_refresh (live pending : List DNSRecord)
    (h : keysOf live ~ keysOf pending)
    (hid : ∀ r ∈ live, r.id.isSome = true) :
    (cross_compare live pending true).1 = [] ∧
    (cross_compare live pending true).2.2 = [] ∧
    (cross_compare live pending true).2.1.length = pending.length ∧
    keysOf (cross_compare live pending true).2.1 = keysOf pending ∧
    ∀ u ∈ (cross_compare live pending true).2.1,
      ∃ l ∈ live, u.id = l.id ∧ l.key = u.key := by
  obtain ⟨h1, h2, h3, h4⟩ := pass1_true_total pending live h hid
  have hrs : ∀ q ∈ (pass1 true live pending).2, q.id.isSome = true :=
    fun q hq => (h4 q hq).1
  have hnone : ∀ q ∈ (pass1 true live pending).2, ¬ (q.id.isNone = true) := by
    intro q hq h'
    have hs := hrs q hq
    rw [Option.isNone_iff_eq_none.1 h'] at hs
    simp at hs
  have hcc : cross_compare live pending true =
      ((pass1 true live pending).2.filter (fun p => p.id.isNone),
       (pass1 true live pending).2.filter (fun p => p.id.isSome),
       []) := by
    simp only [cross_compare, h1, pass2_nil]
  rw [hcc]
  refine ⟨List.filter_eq_nil_iff.2 hnone, rfl, ?_, ?_, ?_⟩
  · rw [List.filter_eq_self.2 hrs, h3]
  · rw [List.filter_eq_self.2 hrs, h2]
  · rw [List.filter_eq_self.2 hrs]
    intro u hu
    obtain ⟨_, l, hl, hid', hkey⟩ := h4 u hu
    exact ⟨l, hl, hid', hkey⟩

theorem claim3_force_refresh_witness :
    ((keysOf [liveA] ~ keysOf [pendA]) ∧ (∀ r ∈ [liveA], r.id.isSome = true)) ∧
    ((cross_compare [liveA] [pendA] true).1 = [] ∧
     (cross_compare [liveA] [pendA] true).2.2 = [] ∧
     (cross_compare [liveA] [pendA] true).2.1.length = [pendA].length ∧
     keysOf (cross_compare [liveA] [pendA] true).2.1 = keysOf [pendA] ∧
     ∀ u ∈ (cross_compare [liveA] [pendA] true).2.1,
       ∃ l ∈ [liveA], u.id = l.id ∧ l.key = u.key) :=
  ⟨⟨by decide, by decide⟩, claim3_force_refresh _ _ (by decide) (by decide)⟩

/-- C3 counterexample: with a live record carrying no id (the claim as
stated quantifies over all record lists), `force=true` against a
fully-unchanged set produces an empty updating list and a non-empty adding
list, not an updating list of the size of the overlap. -/
theorem claim3_counterexample :
    (keysOf [pendA] ~ keysOf [pendA]) ∧
    (cross_compare [pendA] [pendA] true).2.1 = [] ∧
    (cross_compare [pendA] [pendA] true).1 ≠ [] := by
  refine ⟨by decide, by decide, by decide⟩

theorem all_id_ne_iff (l : List DNSRecord) (x : Option Nat) :
    (l.all (fun u => !(u.id == x))) = true ↔ ¬ x ∈ l.map (fun u => u.id) := by
  rw [List.all_eq_true]
  constructor
  · intro h hx
    obtain ⟨u, hu, hux⟩ := List.mem_map.1 hx
    have h2 := h u hu
    rw [hux] at h2
    simp at h2
  · intro h u hu
    cases hbe : u.id == x with
    | false => rfl
    | true =>
      have hxeq : u.id = x := beq_iff_eq.1 hbe
      exact absurd (hxeq ▸ List.mem_map_of_mem (fun u => u.id) hu) h

theorem filter_isNone_isSome_partition (l : List DNSRecord) :
    keysOf (l.filter (fun q => q.id.isSome)) ++ keysOf (l.filter (fun q => q.id.isNone)) ~
      keysOf l := by
  have h1 : l.filter (fun q => q.id.isNone) = l.filter (fun q => !(q.id.isSome)) := by
    apply List.filter_congr
    intro a _
    cases a.id <;> rfl
  rw [h1]
  have := List.filter_append_perm (fun q : DNSRecord => q.id.isSome) l
  simpa [keysOf, List.map_append] using this.map DNSRecord.key

/-- The common accounting engine for C1: once the run of `cross_compare`
has been decomposed into the remaining pool `old2`, the consumed records
`D` whose ids were adopted by the updating records, and the consumed
records `K` that cancelled against dropped pending records, the three
output lists are pairwise disjoint and applying them to `live`
reconstructs the pending key multiset. -/
theorem cross_reconcile_aux
    (live pending rs2 old2 D K : List DNSRecord)
    (h1 : ∀ r ∈ live, r.id.isSome = true)
    (h2 : (live.map (fun r => r.id)).Nodup)
    (hsplit : live ~ old2 ++ (D ++ K))
    (hupd : ((rs2.filter (fun q => q.id.isSome)).map (fun q => q.id)).Perm
      (D.map (fun o => o.id)))
    (hkeys : keysOf K ++ keysOf rs2 ~ keysOf pending) :
    ((rs2.filter (fun q => q.id.isNone)).Disjoint (rs2.filter (fun q => q.id.isSome)) ∧
     (rs2.filter (fun q => q.id.isNone)).Disjoint old2 ∧
     (rs2.filter (fun q => q.id.isSome)).Disjoint old2) ∧
    keysOf (applyChanges live (rs2.filter (fun q => q.id.isNone))
      (rs2.filter (fun q => q.id.isSome)) old2) ~ keysOf pending := by
  have hids : ((old2 ++ (D ++ K)).map (fun r => r.id)).Nodup :=
    ((hsplit.map (fun r => r.id)).nodup_iff).1 h2
  rw [List.map_append, List.map_append] at hids
  obtain ⟨hndA, hndBC, hdisjA⟩ := List.nodup_append.1 hids
  obtain ⟨hndB, hndC, hdisjBC⟩ := List.nodup_append.1 hndBC
  have hmemlive : ∀ x ∈ old2 ++ (D ++ K), x ∈ live := fun x hx => hsplit.mem_iff.2 hx
  have hpred : ∀ l : DNSRecord,
      ((rs2.filter (fun q => q.id.isSome)).all (fun u => !(u.id == l.id)) &&
        old2.all (fun d => !(d.id == l.id))) = true ↔
      (¬ l.id ∈ (rs2.filter (fun q => q.id.isSome)).map (fun u => u.id)) ∧
      (¬ l.id ∈ old2.map (fun d => d.id)) := by
    intro l
    rw [Bool.and_eq_true, all_id_ne_iff, all_id_ne_iff]
  have hfA : old2.filter (fun l => (rs2.filter (fun q => q.id.isSome)).all
      (fun u => !(u.id == l.id)) && old2.all (fun d => !(d.id == l.id))) = [] := by
    rw [List.filter_eq_nil_iff]
    intro l hl hp
    exact ((hpred l).1 hp).2 (List.mem_map_of_mem _ hl)
  have hfB : D.filter (fun l => (rs2.filter (fun q => q.id.isSome)).all
      (fun u => !(u.id == l.id)) && old2.all (fun d => !(d.id == l.id))) = [] := by
    rw [List.filter_eq_nil_iff]
    intro l hl hp
    exact ((hpred l).1 hp).1 (hupd.mem_iff.2 (List.mem_map_of_mem _ hl))
  have hfK : K.filter (fun l => (rs2.filter (fun q => q.id.isSome)).all
      (fun u => !(u.id == l.id)) && old2.all (fun d => !(d.id == l.id))) = K := by
    rw [List.filter_eq_self]
    intro l hl
    refine (hpred l).2 ⟨?_, ?_⟩
    · intro hmem
      exact hdisjBC (hupd.mem_iff.1 hmem) (List.mem_map_of_mem _ hl)
    · intro hmem
      exact hdisjA hmem (List.mem_append.2 (Or.inr (List.mem_map_of_mem _ hl)))
  have hfilter : live.filter (fun l => (rs2.filter (fun q => q.id.isSome)).all
      (fun u => !(u.id == l.id)) && old2.all (fun d => !(d.id == l.id))) ~ K := by
    refine (hsplit.filter _).trans ?_
    rw [List.filter_append, List.filter_append, hfA, hfB, hfK]
    simp
  refine ⟨⟨?_, ?_, ?_⟩, ?_⟩
  · intro a ha hb
    have hna : a.id.isNone = true := (List.mem_filter.1 ha).2
    have hsa : a.id.isSome = true := (List.mem_filter.1 hb).2
    rw [Option.isNone_iff_eq_none.1 hna] at hsa
    simp at hsa
  · intro a ha hb
    have hna : a.id.isNone = true := (List.mem_filter.1 ha).2
    have hsa : a.id.isSome = true :=
      h1 a (hmemlive a (List.mem_append.2 (Or.inl hb)))
    rw [Option.isNone_iff_eq_none.1 hna] at hsa
    simp at hsa
  · intro a ha hb
    have hmem : a.id ∈ D.map (fun o => o.id) :=
      hupd.mem_iff.1 (List.mem_map_of_mem _ ha)
    exact hdisjA (List.mem_map_of_mem _ hb)
      (List.mem_append.2 (Or.inl hmem))
  · have happ : applyChanges live (rs2.filter (fun q => q.id.isNone))
        (rs2.filter (fun q => q.id.isSome)) old2 =
        live.filter (fun l => (rs2.filter (fun q => q.id.isSome)).all
          (fun u => !(u.id == l.id)) && old2.all (fun d => !(d.id == l.id))) ++
        rs2.filter (fun q => q.id.isSome) ++ rs2.filter (fun q => q.id.isNone) := rfl
    rw [happ]
    have hK : keysOf (live.filter (fun l => (rs2.filter (fun q => q.id.isSome)).all
        (fun u => !(u.id == l.id)) && old2.all (fun d => !(d.id == l.id)))) ~ keysOf K := by
      simpa [keysOf] using hfilter.map DNSRecord.key
    have hka : keysOf (live.filter (fun l => (rs2.filter (fun q => q.id.isSome)).all
        (fun u => !(u.id == l.id)) && old2.all (fun d => !(d.id == l.id))) ++
        rs2.filter (fun q => q.id.isSome) ++ rs2.filter (fun q => q.id.isNone)) =
        keysOf (live.filter (fun l => (rs2.filter (fun q => q.id.isSome)).all
          (fun u => !(u.id == l.id)) && old2.all (fun d => !(d.id == l.id)))) ++
        (keysOf (rs2.filter (fun q => q.id.isSome)) ++
          keysOf (rs2.filter (fun q => q.id.isNone))) := by
      simp [keysOf, List.map_append]
    rw [hka]
    refine List.Perm.trans ?_ hkeys
    exact List.Perm.append hK (filter_isNone_isSome_partition rs2)

theorem sims_false_symmetric :
    Symmetric (fun a b : DNSRecord => a.sims b = false) := by
  intro a b h
  cases hs : b.sims a with
  | false => rfl
  | true => rw [DNSRecord.sims_symm hs] at h; cases h

/-- C1 (corrected): under the spec's data-model assumptions — every live
record carries a provider id, live ids are pairwise distinct, pending
records are id-less, and (for `force`) no two live records share
(name, type) — `cross_compare` returns pairwise disjoint `adding`,
`updating`, `deleting` lists whose application to `live` (replace each
live record whose id appears in `updating`, remove each `deleting` record
by id, insert each `adding` record) reconstructs exactly the key multiset
of `pending`. -/
theorem claim1_reconcile (live pending : List DNSRecord) (force : Bool)
    (h1 : ∀ r ∈ live, r.id.isSome = true)
    (h2 : (live.map (fun r => r.id)).Nodup)
    (h3 : ∀ r ∈ pending, r.id = none)
    (h4 : force = true → live.Pairwise (fun a b => a.sims b = false)) :
    ((cross_compare live pending force).1.Disjoint (cross_compare live pending force).2.1 ∧
     (cross_compare live pending force).1.Disjoint (cross_compare live pending force).2.2 ∧
     (cross_compare live pending force).2.1.Disjoint (cross_compare live pending force).2.2) ∧
    keysOf (applyChanges live (cross_compare live pending force).1
      (cross_compare live pending force).2.1 (cross_compare live pending force).2.2) ~
      keysOf pending := by
  have hcc : cross_compare live pending force =
      ((pass2 (pass1 force live pending).1 (pass1 force live pending).2).2.filter
        (fun p => p.id.isNone),
       (pass2 (pass1 force live pending).1 (pass1 force live pending).2).2.filter
        (fun p => p.id.isSome),
       (pass2 (pass1 force live pending).1 (pass1 force live pending).2).1) := rfl
  rw [hcc]
  cases force with
  | false =>
    obtain ⟨C1, hp1, hrel1⟩ := pass1_false_spec pending live
    obtain ⟨C2, hp2, hrel2⟩ :=
      pass2_spec (pass1 false live pending).2 (pass1 false live pending).1
    have hmem_old1 : ∀ x ∈ (pass1 false live pending).1, x ∈ live := by
      intro x hx
      exact hp1.mem_iff.2 (List.mem_append.2 (Or.inl hx))
    have hC2live : ∀ o ∈ C2, o ∈ live := by
      intro o ho
      exact hmem_old1 o (hp2.mem_iff.2 (List.mem_append.2 (Or.inr ho)))
    have hrs1none : ∀ q ∈ (pass1 false live pending).2, q.id = none :=
      fun q hq => h3 q (hrel1.mem_of_mem q hq)
    have hupd : (((pass2 (pass1 false live pending).1 (pass1 false live pending).2).2.filter
        (fun q => q.id.isSome)).map (fun q => q.id)).Perm (C2.map (fun o => o.id)) := by
      have hno : ∀ p ∈ (pass1 false live pending).2, ∀ o ∈ C2,
          p.id.isSome = true → p.sims o = false := by
        intro p hp o _ hs
        rw [hrs1none p hp] at hs
        cases hs
      have h := hrel2.ids_perm (fun o ho => h1 o (hC2live o ho)) hno
      have hnil : (pass1 false live pending).2.filter (fun q => q.id.isSome) = [] := by
        rw [List.filter_eq_nil_iff]
        intro q hq hs
        rw [hrs1none q hq] at hs
        cases hs
      rw [hnil] at h
      simpa using h
    have hkeys : keysOf C1 ++
        keysOf (pass2 (pass1 false live pending).1 (pass1 false live pending).2).2 ~
        keysOf pending := by
      rw [hrel2.keysOf_eq]
      exact (List.perm_append_comm.trans hrel1.keys_perm.symm)
    have hsplit : live ~
        (pass2 (pass1 false live pending).1 (pass1 false live pending).2).1 ++ (C2 ++ C1) := by
      refine hp1.trans ?_
      refine List.Perm.trans (hp2.append_right C1) ?_
      rw [List.append_assoc]
    exact cross_reconcile_aux live pending _ _ C2 C1 h1 h2 hsplit hupd hkeys
  | true =>
    have hpw : live.Pairwise (fun a b => a.sims b = false) := h4 rfl
    obtain ⟨C1, hp1, hrel1⟩ := pass1_true_spec pending live
    obtain ⟨C2, hp2, hrel2⟩ :=
      pass2_spec (pass1 true live pending).2 (pass1 true live pending).1
    have hmem_old1 : ∀ x ∈ (pass1 true live pending).1, x ∈ live := by
      intro x hx
      exact hp1.mem_iff.2 (List.mem_append.2 (Or.inl hx))
    have hC1live : ∀ o ∈ C1, o ∈ live := by
      intro o ho
      exact hp1.mem_iff.2 (List.mem_append.2 (Or.inr ho))
    have hC2live : ∀ o ∈ C2, o ∈ live := by
      intro o ho
      exact hmem_old1 o (hp2.mem_iff.2 (List.mem_append.2 (Or.inr ho)))
    have hsplit : live ~
        (pass2 (pass1 true live pending).1 (pass1 true live pending).2).1 ++
          ((C2 ++ C1) ++ []) := by
      rw [List.append_nil]
      refine hp1.trans ?_
      refine List.Perm.trans (hp2.append_right C1) ?_
      rw [List.append_assoc]
    have hpw2 : List.Pairwise (fun a b : DNSRecord => a.sims b = false)
        ((pass2 (pass1 true live pending).1 (pass1 true live pending).2).1 ++
          ((C2 ++ C1) ++ [])) :=
      ((hsplit.pairwise_iff (fun {x y} h => sims_false_symmetric h)).1 hpw)
    have hcross : ∀ x ∈ C2, ∀ y ∈ C1, x.sims y = false := by
      rw [List.append_nil] at hpw2
      have h := (List.pairwise_append.1 hpw2).2.1
      intro x hx y hy
      exact (List.pairwise_append.1 h).2.2 x hx y hy
    have hrs1some : ∀ q ∈ (pass1 true live pending).2, q.id.isSome = true →
        ∃ o ∈ C1, q.id = o.id ∧ q.sims o = true :=
      hrel1.some_from h3
    have hno2 : ∀ p ∈ (pass1 true live pending).2, ∀ o ∈ C2,
        p.id.isSome = true → p.sims o = false := by
      intro p hp o ho hs
      obtain ⟨o1, ho1, _, hsims1⟩ := hrs1some p hp hs
      cases hso : p.sims o with
      | false => rfl
      | true =>
        have : o.sims o1 = true := DNSRecord.sims_trans hso hsims1
        rw [hcross o ho o1 ho1] at this
        cases this
    have hupd : (((pass2 (pass1 true live pending).1 (pass1 true live pending).2).2.filter
        (fun q => q.id.isSome)).map (fun q => q.id)).Perm ((C2 ++ C1).map (fun o => o.id)) := by
      have hno1 : ∀ p ∈ pending, ∀ o ∈ C1, p.id.isSome = true → p.sims o = false := by
        intro p hp o _ hs
        rw [h3 p hp] at hs
        cases hs
      have hids1 := hrel1.ids_perm (fun o ho => h1 o (hC1live o ho)) hno1
      have hnil : pending.filter (fun q => q.id.isSome) = [] := by
        rw [List.filter_eq_nil_iff]
        intro q hq hs
        rw [h3 q hq] at hs
        cases hs
      rw [hnil] at hids1
      have hids2 := hrel2.ids_perm (fun o ho => h1 o (hC2live o ho)) hno2
      rw [List.map_append]
      refine hids2.trans ?_
      refine List.Perm.trans (hids1.append_right _) ?_
      simpa using List.perm_append_comm
    have hkeys : keysOf ([] : List DNSRecord) ++
        keysOf (pass2 (pass1 true live pending).1 (pass1 true live pending).2).2 ~
        keysOf pending := by
      rw [hrel2.keysOf_eq, hrel1.keysOf_eq]
      simp [keysOf]
    exact cross_reconcile_aux live pending _ _ (C2 ++ C1) [] h1 h2 hsplit hupd hkeys

/-- A second pending record whose content drifted from `liveA`. -/
def pendB : DNSRecord := { name := "a", type := .A, content := "2.2.2.2", ttl := 300 }

theorem claim1_reconcile_witness :
    ((∀ r ∈ [liveA], r.id.isSome = true) ∧
     (([liveA].map (fun r => r.id)).Nodup) ∧
     (∀ r ∈ [pendB], r.id = none) ∧
     (true = true → [liveA].Pairwise (fun a b => a.sims b = false))) ∧
    (((cross_compare [liveA] [pendB] true).1.Disjoint
        (cross_compare [liveA] [pendB] true).2.1 ∧
      (cross_compare [liveA] [pendB] true).1.Disjoint
        (cross_compare [liveA] [pendB] true).2.2 ∧
      (cross_compare [liveA] [pendB] true).2.1.Disjoint
        (cross_compare [liveA] [pendB] true).2.2) ∧
     keysOf (applyChanges [liveA] (cross_compare [liveA] [pendB] true).1
       (cross_compare [liveA] [pendB] true).2.1
       (cross_compare [liveA] [pendB] true).2.2) ~ keysOf [pendB]) :=
  ⟨⟨by decide, by decide, by decide, fun _ => by decide⟩,
   claim1_reconcile [liveA] [pendB] true (by decide) (by decide) (by decide)
     (fun _ => by decide)⟩

/-- C1 counterexample: with a live record carrying no id (the claim as
stated quantifies over every pair of input lists), the similarity pass
adopts the absent id, the matched live record lands in no output list, and
applying the changeset to `live` does not reconstruct `pending`: the stale
live record survives alongside the added record. -/
theorem claim1_counterexample :
    ¬ (keysOf (applyChanges [pendA] (cross_compare [pendA] [pendB] false).1
        (cross_compare [pendA] [pendB] false).2.1
        (cross_compare [pendA] [pendB] false).2.2) ~ keysOf [pendB]) := by
  decide

/-- The first conflicting partner of `i` in `records`, embedding the inner
loop of `assert_cname_unique` (`dnsutils.py` lines 116-120): a conflict is
any record `j` with the same name and line that is not fully equal to `i`
(Python `i != j` under `__eq__`); only CNAME records `i` are examined. -/
def cnameConflict (records : List DNSRecord) (i : DNSRecord) :
    Option (DNSRecord × DNSRecord) :=
  if i.type == RecordType.CNAME then
    (records.find? (fun j => i.name == j.name && i.line == j.line && !(i.eqb j))).map
      (fun j => (i, j))
  else none

/-- The duplicate-CNAME validator, embedding `assert_cname_unique`
(`dnsutils.py` lines 115-120).  The raised `ValueError` names both
offending records; the embedding returns them as the error value. -/
def assert_cname_unique (records : List DNSRecord) : Except (DNSRecord × DNSRecord) Unit :=
  match records.findSome? (cnameConflict records) with
  | some p => Except.error p
  | none => Except.ok ()

theorem cname_conflict_bool_iff {i j : DNSRecord} :
    (i.name == j.name && i.line == j.line && !(i.eqb j)) = true ↔
      i.name = j.name ∧ i.line = j.line ∧ i.eqb j = false := by
  simp [Bool.and_eq_true, beq_iff_eq, Bool.not_eq_eq_eq_not, and_assoc]

theorem assert_cname_unique_error_iff (records : List DNSRecord) :
    (∃ p, assert_cname_unique records = Except.error p) ↔
      ∃ i ∈ records, i.type = RecordType.CNAME ∧
        ∃ j ∈ records, i.name = j.name ∧ i.line = j.line ∧ i.eqb j = false := by
  constructor
  · rintro ⟨p, hp⟩
    unfold assert_cname_unique at hp
    cases hfs : records.findSome? (cnameConflict records) with
    | none => rw [hfs] at hp; cases hp
    | some q =>
      obtain ⟨i, hi, hconf⟩ := List.exists_of_findSome?_eq_some hfs
      unfold cnameConflict at hconf
      by_cases htype : i.type = RecordType.CNAME
      · rw [if_pos (by simp [htype])] at hconf
        cases hf : records.find? (fun j => i.name == j.name && i.line == j.line && !(i.eqb j)) with
        | none => rw [hf] at hconf; cases hconf
        | some j =>
          have hj : j ∈ records := List.mem_of_find?_eq_some hf
          have hpj := List.find?_some hf
          exact ⟨i, hi, htype, j, hj, cname_conflict_bool_iff.1 (by simpa using hpj)⟩
      · rw [if_neg (by simp [htype])] at hconf
        cases hconf
  · rintro ⟨i, hi, htype, j, hj, hname, hline, hne⟩
    unfold assert_cname_unique
    cases hfs : records.findSome? (cnameConflict records) with
    | some p => exact ⟨p, rfl⟩
    | none =>
      have hnone := List.findSome?_eq_none_iff.1 hfs i hi
      unfold cnameConflict at hnone
      rw [if_pos (by simp [htype])] at hnone
      cases hf : records.find? (fun j => i.name == j.name && i.line == j.line && !(i.eqb j)) with
      | some q => rw [hf] at hnone; cases hnone
      | none =>
        have := List.find?_eq_none.1 hf j hj
        exact absurd (cname_conflict_bool_iff.2 ⟨hname, hline, hne⟩) this

/-- A CNAME record at name `foo`, default line. -/
def cnameFoo : DNSRecord :=
  { name := "foo", type := .CNAME, content := "web.example.com.", ttl := 600 }

/-- A second CNAME at the same (name, line) with different content. -/
def cnameFoo2 : DNSRecord :=
  { name := "foo", type := .CNAME, content := "other.example.com.", ttl := 600 }

/-- An A record sharing (name, line) with `cnameFoo`. -/
def aFoo : DNSRecord :=
  { name := "foo", type := .A, content := "1.2.3.4", ttl := 600 }

/-- C10 (confirmed): the duplicate-CNAME validator raises if and only if
the candidate set contains a CNAME record `i` and a record `j` of any type
with the same name and line that is not full-field-equal to `i`;
consequently two fully identical CNAMEs sharing (name, line) pass
validation, while a CNAME and an A record sharing (name, line) fail it. -/
theorem claim10_validator_iff :
    (∀ records : List DNSRecord,
      (∃ p, assert_cname_unique records = Except.error p) ↔
        ∃ i ∈ records, i.type = RecordType.CNAME ∧
          ∃ j ∈ records, i.name = j.name ∧ i.line = j.line ∧ i.eqb j = false) ∧
    assert_cname_unique [cnameFoo, cnameFoo] = Except.ok () ∧
    assert_cname_unique [cnameFoo, aFoo] = Except.error (cnameFoo, aFoo) :=
  ⟨assert_cname_unique_error_iff, by rfl, by rfl⟩

/-- C7 (corrected): whenever the candidate set contains a CNAME record `i`
and another record `j` sharing its name and line that is not
full-field-equal to `i`, `assert_cname_unique` raises a duplicate-CNAME
error carrying an offending pair of records (both in the set, first one a
CNAME, same name and line, not fully equal).  The validator runs during
record expansion, before the backend is contacted (`tetra.py` lines 248,
322, 327-333).  Two fully identical CNAMEs sharing (name, line) do not
raise, see the counterexample. -/
theorem claim7_duplicate_cname (records : List DNSRecord) (i j : DNSRecord)
    (hi : i ∈ records) (hj : j ∈ records) (htype : i.type = RecordType.CNAME)
    (hname : i.name = j.name) (hline : i.line = j.line) (hne : i.eqb j = false) :
    ∃ p, assert_cname_unique records = Except.error p ∧
      p.1 ∈ records ∧ p.2 ∈ records ∧ p.1.type = RecordType.CNAME ∧
      p.1.name = p.2.name ∧ p.1.line = p.2.line ∧ p.1.eqb p.2 = false := by
  obtain ⟨p, hp⟩ := (assert_cname_unique_error_iff records).2
    ⟨i, hi, htype, j, hj, hname, hline, hne⟩
  refine ⟨p, hp, ?_⟩
  unfold assert_cname_unique at hp
  cases hfs : records.findSome? (cnameConflict records) with
  | none => rw [hfs] at hp; cases hp
  | some q =>
    rw [hfs] at hp
    cases hp
    obtain ⟨i', hi', hconf⟩ := List.exists_of_findSome?_eq_some hfs
    unfold cnameConflict at hconf
    by_cases htype' : i'.type = RecordType.CNAME
    · rw [if_pos (by simp [htype'])] at hconf
      cases hf : records.find?
          (fun j => i'.name == j.name && i'.line == j.line && !(i'.eqb j)) with
      | none => rw [hf] at hconf; cases hconf
      | some j' =>
        rw [hf] at hconf
        cases hconf
        have hj' : j' ∈ records := List.mem_of_find?_eq_some hf
        have hpj := List.find?_some hf
        obtain ⟨h1, h2, h3⟩ := cname_conflict_bool_iff.1 (by simpa using hpj)
        exact ⟨hi', hj', htype', h1, h2, h3⟩
    · rw [if_neg (by simp [htype'])] at hconf
      cases hconf

theorem claim7_duplicate_cname_witness :
    (cnameFoo ∈ [cnameFoo, cnameFoo2] ∧ cnameFoo2 ∈ [cnameFoo, cnameFoo2] ∧
     cnameFoo.type = RecordType.CNAME ∧ cnameFoo.name = cnameFoo2.name ∧
     cnameFoo.line = cnameFoo2.line ∧ cnameFoo.eqb cnameFoo2 = false) ∧
    (∃ p, assert_cname_unique [cnameFoo, cnameFoo2] = Except.error p ∧
      p.1 ∈ [cnameFoo, cnameFoo2] ∧ p.2 ∈ [cnameFoo, cnameFoo2] ∧
      p.1.type = RecordType.CNAME ∧ p.1.name = p.2.name ∧ p.1.line = p.2.line ∧
      p.1.eqb p.2 = false) :=
  ⟨⟨by decide, by decide, by decide, by decide, by decide, by decide⟩,
   claim7_duplicate_cname [cnameFoo, cnameFoo2] cnameFoo cnameFoo2 (by decide) (by decide)
     (by decide) (by decide) (by decide) (by decide)⟩

/-- C7 counterexample: a candidate set containing two CNAME records that
share the same name and the same line — here two fully identical copies —
passes validation without raising, because the code's `i != j` test uses
full-field equality and skips equal records. -/
theorem claim7_counterexample :
    cnameFoo.type = RecordType.CNAME ∧
    assert_cname_unique [cnameFoo, cnameFoo] = Except.ok () := by
  refine ⟨by decide, by rfl⟩

/-- Resolution-driven template instantiation, embedding
`resolve_name_to_template` (`dnsutils.py` lines 99-113).  The external DNS
resolver's answer for the target name is passed in as the lists `resA` and
`resAAAA` of resolved IPv4 / IPv6 addresses; one copy of the template is
emitted per resolved address, with only `type` and `content` replaced
(name, ttl, line, comment, id are preserved). -/
def resolve_name_to_template (resA resAAAA : List String) (template : DNSRecord) :
    List DNSRecord :=
  resA.map (fun a => { template with type := RecordType.A, content := a }) ++
    resAAAA.map (fun a => { template with type := RecordType.AAAA, content := a })

/-- A CNAME record sitting at the zone apex. -/
def isApexCname (r : DNSRecord) : Bool :=
  r.type == RecordType.CNAME && r.name == "@"

/-- Apex-CNAME flattening of the top-layer expander, embedding the
"flatten cname on root" block of `Tetra._parse_top_records` (`tetra.py`
lines 306-316): the CNAME records named `"@"` are collected in order,
deleted from the candidate list, and each is replaced by the records that
`resolve_name_to_template` derives from the resolver's answer for its
content.  `resolve` models the external `dns.resolver` lookup. -/
def flatten_root_cnames (resolve : String → List String × List String)
    (ans : List DNSRecord) : List DNSRecord :=
  let root := ans.filter isApexCname
  let kept := ans.filter (fun r => !(isApexCname r))
  kept ++ root.flatMap
    (fun r => resolve_name_to_template (resolve r.content).1 (resolve r.content).2 r)

/-- An apex CNAME of the top layer. -/
def apexCname : DNSRecord :=
  { name := "@", type := .CNAME, content := "web.example.com.", ttl := 600 }

/-- A non-apex top-layer CNAME that must survive flattening. -/
def topKeep : DNSRecord :=
  { name := "www", type := .CNAME, content := "web.example.com.", ttl := 600 }

/-- A resolver answer with exactly one IPv4 and one IPv6 address. -/
def resolveOne : String → List String × List String :=
  fun _ => (["1.2.3.4"], ["2001:db8::1"])

/-- C9 (confirmed): every apex CNAME is removed by flattening (no output
record is a CNAME named `"@"`); the output is exactly the non-apex records
followed, for each apex CNAME in order, by one A record per resolved IPv4
address and one AAAA record per resolved IPv6 address, each preserving the
original apex record's name, ttl, line and comment; in particular a target
resolving to one IPv4 and one IPv6 address yields exactly one A and one
AAAA record at the apex, replacing the original CNAME. -/
theorem claim9_apex_flattening :
    (∀ (resolve : String → List String × List String) (ans : List DNSRecord),
      (∀ r ∈ flatten_root_cnames resolve ans, ¬(r.type = RecordType.CNAME ∧ r.name = "@")) ∧
      flatten_root_cnames resolve ans =
        ans.filter (fun r => !(isApexCname r)) ++
        (ans.filter isApexCname).flatMap (fun r =>
          (resolve r.content).1.map (fun a => { r with type := RecordType.A, content := a }) ++
          (resolve r.content).2.map
            (fun a => { r with type := RecordType.AAAA, content := a }))) ∧
    flatten_root_cnames resolveOne [topKeep, apexCname] =
      [topKeep,
       { apexCname with type := RecordType.A, content := "1.2.3.4" },
       { apexCname with type := RecordType.AAAA, content := "2001:db8::1" }] := by
  refine ⟨fun resolve ans => ⟨?_, rfl⟩, by rfl⟩
  intro r hr
  rcases List.mem_append.1 hr with hk | hf
  · have hcond := (List.mem_filter.1 hk).2
    rintro ⟨ht, hn⟩
    simp [isApexCname, ht, hn] at hcond
  · obtain ⟨root, hroot, hmem⟩ := List.mem_flatMap.1 hf
    rcases List.mem_append.1 hmem with hA | hAAAA
    · obtain ⟨a, _, rfl⟩ := List.mem_map.1 hA
      rintro ⟨ht, _⟩
      cases ht
    · obtain ⟨a, _, rfl⟩ := List.mem_map.1 hAAAA
      rintro ⟨ht, _⟩
      cases ht

/-- An IP address, already classified by version.  The parsing and
canonicalization done by the external `ipaddress` library is outside the
repository; the embedding carries the canonical text plus the version. -/
inductive IP where
  | v4 (s : String)
  | v6 (s : String)
deriving DecidableEq, Repr

/-- The textual form of the address. -/
def IP.str : IP → String
  | .v4 s => s
  | .v6 s => s

/-- Version test `ipaddress.ip_address(...).version == 4`. -/
def IP.isV4 : IP → Bool
  | .v4 _ => true
  | .v6 _ => false

/-- TTL constants of `tetra.py` lines 63-67. -/
def TTL_HOST : Nat := 43200

def TTL_PERMA : Nat := 86400

def TTL_EXT : Nat := 1

def TTL_NET : Nat := 1

def TTL_TOP : Nat := 600

/-- The `records` dictionary of `Tetra._parse_bottom_records`: an
insertion-ordered map from zone number to record list, as a Python dict
built only through the operations below. -/
abbrev ZoneDict := List (Int × List DNSRecord)

/-- Membership test `zone in records`. -/
def dictMem (k : Int) (d : ZoneDict) : Bool :=
  d.any (fun e => e.1 == k)

/-- Lookup `records[zone]` (empty when absent; only used at present keys
in the Python code). -/
def dictGet (k : Int) (d : ZoneDict) : List DNSRecord :=
  match d.find? (fun e => e.1 == k) with
  | some e => e.2
  | none => []

/-- Assignment `records[zone] = v`: replace in place, else append the new key. -/
def dictSet (k : Int) (v : List DNSRecord) : ZoneDict → ZoneDict
  | [] => [(k, v)]
  | e :: d => if e.1 == k then (k, v) :: d else e :: dictSet k v d

/-- Append `records.setdefault(zone, []).append(r)` — the
`if z not in records: records[z] = []` / `records[z].append(...)` pair of
`tetra.py` lines 159-161 and 176-178. -/
def dictAppendRec (k : Int) (r : DNSRecord) : ZoneDict → ZoneDict
  | [] => [(k, [r])]
  | e :: d => if e.1 == k then (e.1, e.2 ++ [r]) :: d else e :: dictAppendRec k r d

/-- Deletion `del records[zone]`. -/
def dictDel (k : Int) (d : ZoneDict) : ZoneDict :=
  d.filter (fun e => !(e.1 == k))

/-- The list of zones an address lands in (`zones = [zone]` plus the
replication of `tetra.py` lines 152-157 / 170-174): an IPv4 address in
zone 0 also goes to zones 1 and 4, in zone 1 also to zone 4; an IPv6
address in zone 0 also goes to 1 and 6, in zone 1 also to 6. -/
def replicationZones (zone : Int) (a : IP) : List Int :=
  if a.isV4 then
    if zone = 0 then [0, 1, 4] else if zone = 1 then [1, 4] else [zone]
  else
    if zone = 0 then [0, 1, 6] else if zone = 1 then [1, 6] else [zone]

/-- The `DNSRecord(f"{name}.{z}", A/AAAA, address, ttl, comment=...)`
constructor calls of `tetra.py` lines 161-169 / 177-186. -/
def hostRecord (name : String) (z : Int) (a : IP) (ttl : Nat)
    (comment : Option String) : DNSRecord :=
  { name := name ++ "." ++ toString z,
    type := if a.isV4 then RecordType.A else RecordType.AAAA,
    content := a.str,
    ttl := ttl,
    comment := comment }

/-- Processing of one address of one zone entry (`tetra.py` lines
146-186): the address is appended, as a host record, to every zone of
`replicationZones`. -/
def addAddress (name : String) (comment : Option String) (zone : Int) (ttl : Nat)
    (d : ZoneDict) (a : IP) : ZoneDict :=
  (replicationZones zone a).foldl
    (fun d z => dictAppendRec z (hostRecord name z a ttl comment) d) d

/-- A fatal configuration error of the bottom-layer expander
(`logger.fatal` + `exit(-1)`). -/
inductive ConfigError where
  | invalidZone (zone : Int) (name : String)
deriving DecidableEq, Repr

/-- Processing of one `(zone, addresses)` item of a host's `addresses`
map (`tetra.py` lines 131-186): an empty address list just records the
empty zone; a reserved zone other than 0 and 1 is fatal; otherwise the
TTL is chosen by the source zone (long host TTL for zone 0, short TTL
otherwise) and every address is expanded with replication. -/
def addZoneEntry (name : String) (comment : Option String) (d : ZoneDict)
    (entry : Int × List IP) : Except ConfigError ZoneDict :=
  let zone := entry.1
  if entry.2 = [] then Except.ok (dictSet zone [] d)
  else if zone < 10 ∧ zone ≠ 0 ∧ zone ≠ 1 then
    Except.error (ConfigError.invalidZone zone name)
  else
    let ttl := if zone = 0 then TTL_HOST else TTL_EXT
    Except.ok (entry.2.foldl (addAddress name comment zone ttl) d)

/-- The per-host `records` dictionary after the whole `addresses` loop of
`tetra.py` lines 131-186, starting from the empty dict.  The host's
`addresses` map is given as its `.items()` list, zone keys already
converted with `int()`. -/
def buildRecords (name : String) (comment : Option String)
    (entries : List (Int × List IP)) : Except ConfigError ZoneDict :=
  entries.foldlM (addZoneEntry name comment) []

/-- The zone-1 suppression of `tetra.py` lines 187-192:
`if 0 in records and 1 in records and len(records[0]) == len(records[1]) != 0:
del records[1]`. -/
def suppressZone1 (d : ZoneDict) : ZoneDict :=
  if dictMem 0 d = true ∧ dictMem 1 d = true ∧
      (dictGet 0 d).length = (dictGet 1 d).length ∧ (dictGet 1 d).length ≠ 0 then
    dictDel 1 d
  else d

/-- The emitted host address records of one host (`tetra.py` lines
193-194: `for record in records.values(): ans += record`), after
suppression. -/
def parseHostAddresses (name : String) (comment : Option String)
    (entries : List (Int × List IP)) : Except ConfigError (List DNSRecord) :=
  (buildRecords name comment entries).map
    (fun d => ((suppressZone1 d).map Prod.snd).flatten)

/-- The records the bottom layer emits for host
`{name: "web", addresses: ["10.0.0.1"]}` (bare list = zone 0). -/
def webOut (comment : Option String) : List DNSRecord :=
  [{ name := "web.0", type := RecordType.A, content := "10.0.0.1",
     ttl := 43200, comment := comment },
   { name := "web.4", type := RecordType.A, content := "10.0.0.1",
     ttl := 43200, comment := comment }]

/-- C4 (corrected): bottom-layer expansion of
`{name: "web", addresses: ["10.0.0.1"]}` produces exactly the A records
`web.0` and `web.4`, both with content `10.0.0.1` (and the long host TTL):
the zone-1 replica is suppressed because the zone-0 and zone-1 record sets
are identical, so no `web.1` record is emitted. -/
theorem claim4_host_expansion (comment : Option String) :
    parseHostAddresses "web" comment [((0 : Int), [IP.v4 "10.0.0.1"])] =
      Except.ok (webOut comment) := rfl

/-- C4 counterexample: at the claim's own input the expansion emits only
`web.0` and `web.4`; no record named `web.1` is produced, contradicting
the claimed `web.0`, `web.1`, `web.4`. -/
theorem claim4_counterexample :
    parseHostAddresses "web" (some "TETRAB") [((0 : Int), [IP.v4 "10.0.0.1"])] =
      Except.ok (webOut (some "TETRAB")) ∧
    ¬ ∃ r ∈ webOut (some "TETRAB"), r.name = "web.1" :=
  ⟨rfl, by decide⟩

/-- C8 (corrected): whenever a host's addresses map contains an entry
with a NON-EMPTY address list under a zone that is neither 0, nor 1, nor
a user-defined zone ≥ 10 (e.g. zone 4 or 6 supplied directly), the
per-host expansion aborts with a fatal configuration error.  (The parse
runs before `backend.get_records()`, `tetra.py` lines 327-333.)  An entry
with an empty address list bypasses the zone check, see the
counterexample. -/
theorem claim8_invalid_zone_aborts (name : String) (comment : Option String)
    (entries : List (Int × List IP))
    (h : ∃ e ∈ entries, e.2 ≠ [] ∧ e.1 < 10 ∧ e.1 ≠ 0 ∧ e.1 ≠ 1) :
    ∃ err, buildRecords name comment entries = Except.error err := by
  suffices haux : ∀ (es : List (Int × List IP)) (d₀ : ZoneDict),
      (∃ e ∈ es, e.2 ≠ [] ∧ e.1 < 10 ∧ e.1 ≠ 0 ∧ e.1 ≠ 1) →
      ∃ err, es.foldlM (addZoneEntry name comment) d₀ = Except.error err by
    exact haux entries [] h
  intro es
  induction es with
  | nil => rintro d₀ ⟨e, he, _⟩; cases he
  | cons e es ih =>
    rintro d₀ ⟨e', he', hcond⟩
    cases haz : addZoneEntry name comment d₀ e with
    | error err =>
      refine ⟨err, ?_⟩
      rw [List.foldlM_cons, haz]
      rfl
    | ok d₁ =>
      rcases List.mem_cons.1 he' with rfl | he' 
      · exfalso
        obtain ⟨hne, hlt, h0, h1⟩ := hcond
        unfold addZoneEntry at haz
        rw [if_neg hne, if_pos ⟨hlt, h0, h1⟩] at haz
        cases haz
      · obtain ⟨err, hh⟩ := ih d₁ ⟨e', he', hcond⟩
        refine ⟨err, ?_⟩
        rw [List.foldlM_cons, haz]
        exact hh

theorem claim8_invalid_zone_aborts_witness :
    (∃ e ∈ [((4 : Int), [IP.v4 "1.2.3.4"])], e.2 ≠ [] ∧ e.1 < 10 ∧ e.1 ≠ 0 ∧ e.1 ≠ 1) ∧
    ∃ err, buildRecords "web" none [((4 : Int), [IP.v4 "1.2.3.4"])] = Except.error err :=
  ⟨⟨((4 : Int), [IP.v4 "1.2.3.4"]), List.mem_cons_self _ _, by decide, by decide, by decide,
     by decide⟩,
   claim8_invalid_zone_aborts "web" none _
     ⟨((4 : Int), [IP.v4 "1.2.3.4"]), List.mem_cons_self _ _, by decide, by decide, by decide,
       by decide⟩⟩

/-- C8 counterexample: an addresses map entry under reserved zone 4 whose
address list is empty does NOT abort — the code `continue`s before the
zone check and records the empty zone — while the claim as stated demands
a fatal error for every entry under zone 4. -/
theorem claim8_counterexample :
    buildRecords "web" none [((4 : Int), ([] : List IP))] =
      Except.ok [((4 : Int), ([] : List DNSRecord))] ∧
    ¬ ∃ err, buildRecords "web" none [((4 : Int), ([] : List IP))] = Except.error err := by
  refine ⟨rfl, ?_⟩
  rintro ⟨err, h⟩
  rw [show buildRecords "web" none [((4 : Int), ([] : List IP))] =
      Except.ok [((4 : Int), ([] : List DNSRecord))] from rfl] at h
  cases h

theorem dictGet_nil (j : Int) : dictGet j [] = [] := rfl

theorem dictGet_cons (j : Int) (e : Int × List DNSRecord) (d : ZoneDict) :
    dictGet j (e :: d) = if e.1 = j then e.2 else dictGet j d := by
  by_cases h : e.1 = j
  · simp [dictGet, List.find?_cons_of_pos, h]
  · rw [if_neg h]
    unfold dictGet
    rw [List.find?_cons_of_neg _ (by simpa using h)]

theorem dictGet_dictSet (k j : Int) (v : List DNSRecord) (d : ZoneDict) :
    dictGet j (dictSet k v d) = if j = k then v else dictGet j d := by
  induction d with
  | nil =>
    show dictGet j [(k, v)] = _
    rw [dictGet_cons]
    by_cases h : j = k
    · rw [if_pos h.symm, if_pos h]
    · rw [if_neg (fun hh => h hh.symm), if_neg h, dictGet_nil]
  | cons e d ih =>
    unfold dictSet
    by_cases he : e.1 = k
    · rw [if_pos (by simpa using he), dictGet_cons, dictGet_cons]
      by_cases h : j = k
      · rw [if_pos h.symm, if_pos h]
      · rw [if_neg (fun hh => h hh.symm), if_neg h, if_neg (fun hh => h (he ▸ hh).symm)]
    · rw [if_neg (by simpa using he), dictGet_cons, dictGet_cons]
      by_cases h : e.1 = j
      · rw [if_pos h, if_pos h]
        rw [if_neg (fun hh : j = k => he (h.trans hh))]
      · rw [if_neg h, if_neg h, ih]

theorem dictGet_dictAppendRec (k j : Int) (r : DNSRecord) (d : ZoneDict) :
    dictGet j (dictAppendRec k r d) =
      if j = k then dictGet j d ++ [r] else dictGet j d := by
  induction d with
  | nil =>
    show dictGet j [(k, [r])] = _
    rw [dictGet_cons, dictGet_nil]
    by_cases h : j = k
    · rw [if_pos h.symm, if_pos h]
      rfl
    · rw [if_neg (fun hh => h hh.symm), if_neg h]
  | cons e d ih =>
    unfold dictAppendRec
    by_cases he : e.1 = k
    · rw [if_pos (by simpa using he), dictGet_cons, dictGet_cons]
      by_cases h : e.1 = j
      · have hjk : j = k := h ▸ he
        rw [if_pos h, if_pos hjk, if_pos h]
      · have hjk : ¬ j = k := fun hh => h (he.trans hh.symm)
        rw [if_neg h, if_neg hjk, if_neg h]
    · rw [if_neg (by simpa using he), dictGet_cons, dictGet_cons]
      by_cases h : e.1 = j
      · rw [if_pos h, if_pos h]
        rw [if_neg (fun hh : j = k => he (h.trans hh))]
      · rw [if_neg h, if_neg h, ih]

theorem repZones_zero {zone : Int} {a : IP} (h : (0 : Int) ∈ replicationZones zone a) :
    zone = 0 := by
  unfold replicationZones at h
  cases a with
  | v4 s =>
    by_cases h0 : zone = 0
    · exact h0
    · by_cases h1 : zone = 1
      · subst h1
        simp [IP.isV4] at h
      · simp [IP.isV4, h0, h1] at h
        exact h.symm
  | v6 s =>
    by_cases h0 : zone = 0
    · exact h0
    · by_cases h1 : zone = 1
      · subst h1
        simp [IP.isV4] at h
      · simp [IP.isV4, h0, h1] at h
        exact h.symm

theorem repZones_ge10 {z zone : Int} {a : IP} (h : z ∈ replicationZones zone a)
    (hz : 10 ≤ z) : zone ≠ 0 := by
  intro h0
  subst h0
  unfold replicationZones at h
  cases a with
  | v4 s =>
    simp [IP.isV4] at h
    rcases h with rfl | rfl | rfl <;> omega
  | v6 s =>
    simp [IP.isV4] at h
    rcases h with rfl | rfl | rfl <;> omega

/-- The TTL discipline of the generated host records: every record carries
the long host TTL or the short TTL; zone-0 records always carry the long
one; user-zone (≥ 10) records always carry the short one. -/
def ttlOk (z : Int) (r : DNSRecord) : Prop :=
  (r.ttl = TTL_HOST ∨ r.ttl = TTL_EXT) ∧ (z = 0 → r.ttl = TTL_HOST) ∧
    (10 ≤ z → r.ttl = TTL_EXT)

theorem mem_snd_dictSet_nil {k : Int} {d : ZoneDict} :
    ∀ e ∈ dictSet k [] d, ∀ x ∈ e.2, ∃ e' ∈ d, e'.1 = e.1 ∧ x ∈ e'.2 := by
  induction d with
  | nil =>
    intro e he x hx
    rcases List.mem_cons.1 he with rfl | he
    · cases hx
    · cases he
  | cons hd d ih =>
    intro e he x hx
    unfold dictSet at he
    by_cases hk : hd.1 = k
    · rw [if_pos (by simpa using hk)] at he
      rcases List.mem_cons.1 he with rfl | he
      · cases hx
      · exact ⟨e, List.mem_cons_of_mem _ he, rfl, hx⟩
    · rw [if_neg (by simpa using hk)] at he
      rcases List.mem_cons.1 he with rfl | he
      · exact ⟨e, List.mem_cons_self _ _, rfl, hx⟩
      · obtain ⟨e', he', h1, h2⟩ := ih e he x hx
        exact ⟨e', List.mem_cons_of_mem _ he', h1, h2⟩

theorem mem_snd_dictAppendRec {k : Int} {r : DNSRecord} {d : ZoneDict} :
    ∀ e ∈ dictAppendRec k r d, ∀ x ∈ e.2,
      (∃ e' ∈ d, e'.1 = e.1 ∧ x ∈ e'.2) ∨ (x = r ∧ e.1 = k) := by
  induction d with
  | nil =>
    intro e he x hx
    rcases List.mem_cons.1 he with rfl | he
    · rcases List.mem_cons.1 hx with rfl | hx
      · exact Or.inr ⟨rfl, rfl⟩
      · cases hx
    · cases he
  | cons hd d ih =>
    intro e he x hx
    unfold dictAppendRec at he
    by_cases hk : hd.1 = k
    · rw [if_pos (by simpa using hk)] at he
      rcases List.mem_cons.1 he with rfl | he
      · rcases List.mem_append.1 hx with hx | hx
        · exact Or.inl ⟨hd, List.mem_cons_self _ _, rfl, hx⟩
        · rcases List.mem_cons.1 hx with rfl | hx
          · exact Or.inr ⟨rfl, hk⟩
          · cases hx
      · exact Or.inl ⟨e, List.mem_cons_of_mem _ he, rfl, hx⟩
    · rw [if_neg (by simpa using hk)] at he
      rcases List.mem_cons.1 he with rfl | he
      · exact Or.inl ⟨e, List.mem_cons_self _ _, rfl, hx⟩
      · rcases ih e he x hx with ⟨e', he', h1, h2⟩ | hr
        · exact Or.inl ⟨e', List.mem_cons_of_mem _ he', h1, h2⟩
        · exact Or.inr hr

theorem ttl_inv_addAddress (n : String) (c : Option String) (zone : Int) (ttl : Nat)
    (httl : ttl = if zone = 0 then TTL_HOST else TTL_EXT) (a : IP) (d : ZoneDict)
    (hd : ∀ e ∈ d, ∀ x ∈ e.2, ttlOk e.1 x) :
    ∀ e ∈ addAddress n c zone ttl d a, ∀ x ∈ e.2, ttlOk e.1 x := by
  suffices haux : ∀ zs : List Int, (∀ z ∈ zs, z ∈ replicationZones zone a) →
      ∀ d, (∀ e ∈ d, ∀ x ∈ e.2, ttlOk e.1 x) →
      ∀ e ∈ zs.foldl (fun d z => dictAppendRec z (hostRecord n z a ttl c) d) d,
        ∀ x ∈ e.2, ttlOk e.1 x by
    exact haux _ (fun z hz => hz) d hd
  intro zs
  induction zs with
  | nil =>
    intro _ d hdd e he x hx
    exact hdd e he x hx
  | cons z zs ih =>
    intro hsub d hdd
    rw [List.foldl_cons]
    refine ih (fun z' hz' => hsub z' (List.mem_cons_of_mem _ hz')) _ ?_
    intro e he x hx
    rcases mem_snd_dictAppendRec e he x hx with ⟨e', he', h1, h2⟩ | ⟨rfl, hek⟩
    · exact h1 ▸ hdd e' he' x h2
    · rw [hek]
      have hzin := hsub z (List.mem_cons_self _ _)
      refine ⟨?_, ?_, ?_⟩
      · show ttl = TTL_HOST ∨ ttl = TTL_EXT
        rw [httl]
        by_cases h0 : zone = 0
        · rw [if_pos h0]; exact Or.inl rfl
        · rw [if_neg h0]; exact Or.inr rfl
      · intro hz0
        show ttl = TTL_HOST
        rw [httl, if_pos (repZones_zero (hz0 ▸ hzin))]
      · intro hz10
        show ttl = TTL_EXT
        rw [httl, if_neg (repZones_ge10 hzin hz10)]

theorem ttl_inv_addrFold (n : String) (c : Option String) (zone : Int) (ttl : Nat)
    (httl : ttl = if zone = 0 then TTL_HOST else TTL_EXT) :
    ∀ (L : List IP) (d : ZoneDict), (∀ e ∈ d, ∀ x ∈ e.2, ttlOk e.1 x) →
      ∀ e ∈ L.foldl (addAddress n c zone ttl) d, ∀ x ∈ e.2, ttlOk e.1 x := by
  intro L
  induction L with
  | nil =>
    intro d hd e he x hx
    exact hd e he x hx
  | cons a L ih =>
    intro d hd
    rw [List.foldl_cons]
    exact ih _ (ttl_inv_addAddress n c zone ttl httl a d hd)

theorem ttl_inv_addZoneEntry (n : String) (c : Option String) {d d' : ZoneDict}
    {entry : Int × List IP} (hd : ∀ e ∈ d, ∀ x ∈ e.2, ttlOk e.1 x)
    (h : addZoneEntry n c d entry = Except.ok d') :
    ∀ e ∈ d', ∀ x ∈ e.2, ttlOk e.1 x := by
  unfold addZoneEntry at h
  by_cases hemp : entry.2 = []
  · rw [if_pos hemp] at h
    cases h
    intro e he x hx
    obtain ⟨e', he', h1, h2⟩ := mem_snd_dictSet_nil e he x hx
    exact h1 ▸ hd e' he' x h2
  · rw [if_neg hemp] at h
    by_cases hbad : entry.1 < 10 ∧ entry.1 ≠ 0 ∧ entry.1 ≠ 1
    · rw [if_pos hbad] at h
      cases h
    · rw [if_neg hbad] at h
      cases h
      exact ttl_inv_addrFold n c entry.1 _ rfl entry.2 d hd

/-- C6 (corrected): every generated `<host>.<zone>` record carries either
the long host TTL (43200) or the short TTL (1); a record in zone 0 always
carries 43200 and a record in a user zone ≥ 10 always carries the short
TTL — but the TTL is chosen by the zone the address was placed in, so a
record landing in zone 1, 4 or 6 by replication from a zone-0 address
carries 43200, not the short TTL (see the counterexample). -/
theorem claim6_ttl_discipline (name : String) (comment : Option String)
    (entries : List (Int × List IP)) (d : ZoneDict)
    (h : buildRecords name comment entries = Except.ok d) :
    ∀ e ∈ d, ∀ r ∈ e.2,
      (r.ttl = TTL_HOST ∨ r.ttl = TTL_EXT) ∧
      (e.1 = 0 → r.ttl = TTL_HOST) ∧ (10 ≤ e.1 → r.ttl = TTL_EXT) := by
  suffices haux : ∀ (es : List (Int × List IP)) (d₀ : ZoneDict),
      (∀ e ∈ d₀, ∀ x ∈ e.2, ttlOk e.1 x) →
      ∀ d, es.foldlM (addZoneEntry name comment) d₀ = Except.ok d →
      ∀ e ∈ d, ∀ x ∈ e.2, ttlOk e.1 x by
    exact haux entries [] (by intro e he; cases he) d h
  intro es
  induction es with
  | nil =>
    intro d₀ h₀ d hfold
    rw [List.foldlM_nil] at hfold
    cases hfold
    exact h₀
  | cons e es ih =>
    intro d₀ h₀ d hfold
    rw [List.foldlM_cons] at hfold
    cases haz : addZoneEntry name comment d₀ e with
    | error err =>
      rw [haz] at hfold
      cases hfold
    | ok d₁ =>
      rw [haz] at hfold
      exact ih d₁ (ttl_inv_addZoneEntry name comment h₀ haz) d hfold

/-- C6 counterexample: at host `{name: "web", addresses: ["10.0.0.1"]}`
the emitted record `web.4` — landing in zone 4 by replication from an
address placed in zone 0 — carries TTL 43200, although its zone is not 0;
the claim as stated requires it to carry the short/auto TTL instead. -/
theorem claim6_counterexample :
    parseHostAddresses "web" (some "TETRAB") [((0 : Int), [IP.v4 "10.0.0.1"])] =
      Except.ok (webOut (some "TETRAB")) ∧
    (∃ r ∈ webOut (some "TETRAB"), r.name = "web.4" ∧ r.ttl = TTL_HOST) ∧
    TTL_HOST ≠ TTL_EXT :=
  ⟨rfl, by decide, by decide⟩

/-- The address contents of the records accumulated under zone `j`. -/
def contentsAt (j : Int) (d : ZoneDict) : List String :=
  (dictGet j d).map (fun r => r.content)

theorem contentsAt_addAddress_zero (n : String) (c : Option String) (zone : Int)
    (ttl : Nat) (a : IP) (d : ZoneDict) :
    contentsAt 0 (addAddress n c zone ttl d a) =
      contentsAt 0 d ++ (if zone = 0 then [a.str] else []) := by
  by_cases h0 : zone = 0
  · subst h0
    cases a with
    | v4 s =>
      simp [contentsAt, addAddress, replicationZones, IP.isV4, dictGet_dictAppendRec,
        hostRecord, IP.str]
    | v6 s =>
      simp [contentsAt, addAddress, replicationZones, IP.isV4, dictGet_dictAppendRec,
        hostRecord, IP.str]
  · rw [if_neg h0, List.append_nil]
    by_cases h1 : zone = 1
    · subst h1
      cases a with
      | v4 s =>
        simp [contentsAt, addAddress, replicationZones, IP.isV4, dictGet_dictAppendRec]
      | v6 s =>
        simp [contentsAt, addAddress, replicationZones, IP.isV4, dictGet_dictAppendRec]
    · cases a with
      | v4 s =>
        simp [contentsAt, addAddress, replicationZones, IP.isV4, dictGet_dictAppendRec,
          h0, h1, show ¬ ((0 : Int) = zone) from fun hh => h0 hh.symm]
      | v6 s =>
        simp [contentsAt, addAddress, replicationZones, IP.isV4, dictGet_dictAppendRec,
          h0, h1, show ¬ ((0 : Int) = zone) from fun hh => h0 hh.symm]

theorem contentsAt_addAddress_one (n : String) (c : Option String) (zone : Int)
    (ttl : Nat) (a : IP) (d : ZoneDict) :
    contentsAt 1 (addAddress n c zone ttl d a) =
      contentsAt 1 d ++ (if zone = 0 ∨ zone = 1 then [a.str] else []) := by
  by_cases h0 : zone = 0
  · subst h0
    rw [if_pos (Or.inl rfl)]
    cases a with
    | v4 s =>
      simp [contentsAt, addAddress, replicationZones, IP.isV4, dictGet_dictAppendRec,
        hostRecord, IP.str]
    | v6 s =>
      simp [contentsAt, addAddress, replicationZones, IP.isV4, dictGet_dictAppendRec,
        hostRecord, IP.str]
  · by_cases h1 : zone = 1
    · subst h1
      rw [if_pos (Or.inr rfl)]
      cases a with
      | v4 s =>
        simp [contentsAt, addAddress, replicationZones, IP.isV4, dictGet_dictAppendRec,
          hostRecord, IP.str]
      | v6 s =>
        simp [contentsAt, addAddress, replicationZones, IP.isV4, dictGet_dictAppendRec,
          hostRecord, IP.str]
    · rw [if_neg (by rintro (h | h) <;> [exact h0 h; exact h1 h]), List.append_nil]
      cases a with
      | v4 s =>
        simp [contentsAt, addAddress, replicationZones, IP.isV4, dictGet_dictAppendRec,
          h0, h1, show ¬ ((1 : Int) = zone) from fun hh => h1 hh.symm]
      | v6 s =>
        simp [contentsAt, addAddress, replicationZones, IP.isV4, dictGet_dictAppendRec,
          h0, h1, show ¬ ((1 : Int) = zone) from fun hh => h1 hh.symm]

theorem contentsAt_addrFold_zero (n : String) (c : Option String) (zone : Int)
    (ttl : Nat) :
    ∀ (L : List IP) (d : ZoneDict),
      contentsAt 0 (L.foldl (addAddress n c zone ttl) d) =
        contentsAt 0 d ++ (if zone = 0 then L.map IP.str else []) := by
  intro L
  induction L with
  | nil => intro d; simp
  | cons a L ih =>
    intro d
    rw [List.foldl_cons, ih, contentsAt_addAddress_zero]
    by_cases h0 : zone = 0
    · simp [h0]
    · simp [h0]

theorem contentsAt_addrFold_one (n : String) (c : Option String) (zone : Int)
    (ttl : Nat) :
    ∀ (L : List IP) (d : ZoneDict),
      contentsAt 1 (L.foldl (addAddress n c zone ttl) d) =
        contentsAt 1 d ++ (if zone = 0 ∨ zone = 1 then L.map IP.str else []) := by
  intro L
  induction L with
  | nil => intro d; simp
  | cons a L ih =>
    intro d
    rw [List.foldl_cons, ih, contentsAt_addAddress_one]
    by_cases h01 : zone = 0 ∨ zone = 1
    · simp [h01]
    · simp [h01]

theorem contentsAt_dictSet (j k : Int) (v : List DNSRecord) (d : ZoneDict) :
    contentsAt j (dictSet k v d) =
      if j = k then v.map (fun r => r.content) else contentsAt j d := by
  unfold contentsAt
  rw [dictGet_dictSet]
  by_cases h : j = k
  · rw [if_pos h, if_pos h]
  · rw [if_neg h, if_neg h]

theorem dictMem_of_dictGet_ne_nil (j : Int) (d : ZoneDict) (h : dictGet j d ≠ []) :
    dictMem j d = true := by
  unfold dictGet at h
  cases hf : d.find? (fun e => e.1 == j) with
  | none => rw [hf] at h; exact absurd rfl h
  | some e =>
    unfold dictMem
    rw [List.any_eq_true]
    exact ⟨e, List.mem_of_find?_eq_some hf, by simpa using List.find?_some hf⟩

theorem dictMem_dictDel_self (j : Int) (d : ZoneDict) :
    dictMem j (dictDel j d) = false := by
  unfold dictMem dictDel
  cases ha : (d.filter fun e => !(e.1 == j)).any (fun e => e.1 == j) with
  | false => rfl
  | true =>
    obtain ⟨e, he, hbe⟩ := List.any_eq_true.1 ha
    have hmm := (List.mem_filter.1 he).2
    rw [hbe] at hmm
    cases hmm

/-- The invariant maintained over the `addresses`-items loop: before the
zone-0 / zone-1 entries are processed their slots are empty, and once both
are processed the zone-1 contents are the zone-0 contents plus the
directly-placed zone-1 extras (or the zone-1 slot was reset to empty by a
trailing empty entry). -/
def zoneInvariant (R : List (Int × List IP)) (d : ZoneDict) : Prop :=
  ((0 : Int) ∈ R.map Prod.fst → contentsAt 0 d = []) ∧
  ((0 : Int) ∈ R.map Prod.fst → (1 : Int) ∈ R.map Prod.fst → contentsAt 1 d = []) ∧
  (¬ (0 : Int) ∈ R.map Prod.fst → (1 : Int) ∈ R.map Prod.fst →
    (contentsAt 1 d).Perm (contentsAt 0 d)) ∧
  (¬ (0 : Int) ∈ R.map Prod.fst → ¬ (1 : Int) ∈ R.map Prod.fst →
    ((∃ extra, (contentsAt 1 d).Perm (contentsAt 0 d ++ extra)) ∨ contentsAt 1 d = []))

theorem zoneInvariant_nil (es : List (Int × List IP)) : zoneInvariant es [] :=
  ⟨fun _ => rfl, fun _ _ => rfl, fun _ _ => List.Perm.refl _, fun _ _ => Or.inr rfl⟩

theorem zoneInv_step (n : String) (c : Option String) {R : List (Int × List IP)}
    {e : Int × List IP} {d d' : ZoneDict}
    (hnodup : ¬ e.1 ∈ R.map Prod.fst)
    (hJ : zoneInvariant (e :: R) d)
    (h : addZoneEntry n c d e = Except.ok d') :
    zoneInvariant R d' := by
  obtain ⟨j1, j2, j3, j4⟩ := hJ
  have hmem0head : e.1 = 0 → (0 : Int) ∈ (e :: R).map Prod.fst := by
    intro hh
    rw [List.map_cons, hh]
    exact List.mem_cons_self _ _
  have hmem1head : e.1 = 1 → (1 : Int) ∈ (e :: R).map Prod.fst := by
    intro hh
    rw [List.map_cons, hh]
    exact List.mem_cons_self _ _
  have hmem0tail : (0 : Int) ∈ R.map Prod.fst → (0 : Int) ∈ (e :: R).map Prod.fst := by
    intro hh
    rw [List.map_cons]
    exact List.mem_cons_of_mem _ hh
  have hmem1tail : (1 : Int) ∈ R.map Prod.fst → (1 : Int) ∈ (e :: R).map Prod.fst := by
    intro hh
    rw [List.map_cons]
    exact List.mem_cons_of_mem _ hh
  unfold addZoneEntry at h
  by_cases hemp : e.2 = []
  · rw [if_pos hemp] at h
    cases h
    by_cases hz0 : e.1 = 0
    · refine ⟨fun hm => absurd hm (hz0 ▸ hnodup),
        fun hm _ => absurd hm (hz0 ▸ hnodup), ?_, ?_⟩
      · intro _ hm1
        have h2 := j2 (hmem0head hz0) (hmem1tail hm1)
        rw [contentsAt_dictSet, contentsAt_dictSet, if_pos hz0.symm,
          if_neg (by rw [hz0]; decide), h2]
        simp
      · intro _ _
        refine Or.inl ⟨contentsAt 1 d, ?_⟩
        rw [contentsAt_dictSet, contentsAt_dictSet, if_pos hz0.symm,
          if_neg (by rw [hz0]; decide)]
        simp
    · by_cases hz1 : e.1 = 1
      · refine ⟨?_, fun _ hm1 => absurd hm1 (hz1 ▸ hnodup),
          fun _ hm1 => absurd hm1 (hz1 ▸ hnodup), ?_⟩
        · intro hm
          rw [contentsAt_dictSet, if_neg (by rw [hz1]; decide)]
          exact j1 (hmem0tail hm)
        · intro _ _
          refine Or.inr ?_
          rw [contentsAt_dictSet, if_pos hz1.symm]
          rfl
      · have hnotmem0 : ¬ (0 : Int) ∈ R.map Prod.fst →
            ¬ (0 : Int) ∈ (e :: R).map Prod.fst := by
          intro hn hc
          rw [List.map_cons, List.mem_cons] at hc
          rcases hc with hc | hc
          · exact hz0 hc.symm
          · exact hn hc
        have hnotmem1 : ¬ (1 : Int) ∈ R.map Prod.fst →
            ¬ (1 : Int) ∈ (e :: R).map Prod.fst := by
          intro hn hc
          rw [List.map_cons, List.mem_cons] at hc
          rcases hc with hc | hc
          · exact hz1 hc.symm
          · exact hn hc
        have hc0 : contentsAt 0 (dictSet e.1 [] d) = contentsAt 0 d := by
          rw [contentsAt_dictSet, if_neg (fun hh => hz0 hh.symm)]
        have hc1 : contentsAt 1 (dictSet e.1 [] d) = contentsAt 1 d := by
          rw [contentsAt_dictSet, if_neg (fun hh => hz1 hh.symm)]
        exact ⟨fun hm => hc0 ▸ j1 (hmem0tail hm),
          fun hm0 hm1 => hc1 ▸ j2 (hmem0tail hm0) (hmem1tail hm1),
          fun hm0 hm1 => hc0 ▸ hc1 ▸ j3 (hnotmem0 hm0) (hmem1tail hm1),
          fun hm0 hm1 => hc0 ▸ hc1 ▸ j4 (hnotmem0 hm0) (hnotmem1 hm1)⟩
  · rw [if_neg hemp] at h
    by_cases hbad : e.1 < 10 ∧ e.1 ≠ 0 ∧ e.1 ≠ 1
    · rw [if_pos hbad] at h
      cases h
    · rw [if_neg hbad] at h
      cases h
      by_cases hz0 : e.1 = 0
      · refine ⟨fun hm => absurd hm (hz0 ▸ hnodup),
          fun hm _ => absurd hm (hz0 ▸ hnodup), ?_, ?_⟩
        · intro _ hm1
          have h1 := j1 (hmem0head hz0)
          have h2 := j2 (hmem0head hz0) (hmem1tail hm1)
          rw [contentsAt_addrFold_zero, contentsAt_addrFold_one, h1, h2,
            if_pos hz0, if_pos (Or.inl hz0)]
        · intro _ _
          have h1 := j1 (hmem0head hz0)
          refine Or.inl ⟨contentsAt 1 d, ?_⟩
          rw [contentsAt_addrFold_zero, contentsAt_addrFold_one, h1,
            if_pos hz0, if_pos (Or.inl hz0)]
          simpa using List.perm_append_comm
      · by_cases hz1 : e.1 = 1
        · refine ⟨?_, fun _ hm1 => absurd hm1 (hz1 ▸ hnodup),
            fun _ hm1 => absurd hm1 (hz1 ▸ hnodup), ?_⟩
          · intro hm
            rw [contentsAt_addrFold_zero, if_neg hz0, List.append_nil]
            exact j1 (hmem0tail hm)
          · intro hm0 _
            have hnotmem0 : ¬ (0 : Int) ∈ (e :: R).map Prod.fst := by
              intro hc
              rw [List.map_cons, List.mem_cons] at hc
              rcases hc with hc | hc
              · exact hz0 hc.symm
              · exact hm0 hc
            have h3 := j3 hnotmem0 (hmem1head hz1)
            refine Or.inl ⟨e.2.map IP.str, ?_⟩
            rw [contentsAt_addrFold_zero, contentsAt_addrFold_one, if_neg hz0,
              if_pos (Or.inr hz1), List.append_nil]
            exact h3.append_right _
        · have hnotmem0 : ¬ (0 : Int) ∈ R.map Prod.fst →
              ¬ (0 : Int) ∈ (e :: R).map Prod.fst := by
            intro hn hc
            rw [List.map_cons, List.mem_cons] at hc
            rcases hc with hc | hc
            · exact hz0 hc.symm
            · exact hn hc
          have hnotmem1 : ¬ (1 : Int) ∈ R.map Prod.fst →
              ¬ (1 : Int) ∈ (e :: R).map Prod.fst := by
            intro hn hc
            rw [List.map_cons, List.mem_cons] at hc
            rcases hc with hc | hc
            · exact hz1 hc.symm
            · exact hn hc
          have hc0 : contentsAt 0
              (e.2.foldl (addAddress n c e.1 (if e.1 = 0 then TTL_HOST else TTL_EXT)) d) =
              contentsAt 0 d := by
            rw [contentsAt_addrFold_zero, if_neg hz0, List.append_nil]
          have hc1 : contentsAt 1
              (e.2.foldl (addAddress n c e.1 (if e.1 = 0 then TTL_HOST else TTL_EXT)) d) =
              contentsAt 1 d := by
            rw [contentsAt_addrFold_one,
              if_neg (by rintro (hh | hh) <;> [exact hz0 hh; exact hz1 hh]),
              List.append_nil]
          exact ⟨fun hm => hc0 ▸ j1 (hmem0tail hm),
            fun hm0 hm1 => hc1 ▸ j2 (hmem0tail hm0) (hmem1tail hm1),
            fun hm0 hm1 => hc0 ▸ hc1 ▸ j3 (hnotmem0 hm0) (hmem1tail hm1),
            fun hm0 hm1 => hc0 ▸ hc1 ▸ j4 (hnotmem0 hm0) (hnotmem1 hm1)⟩

theorem zoneInv_final (n : String) (c : Option String) :
    ∀ (es : List (Int × List IP)) (d₀ : ZoneDict),
      (es.map Prod.fst).Nodup → zoneInvariant es d₀ →
      ∀ d, es.foldlM (addZoneEntry n c) d₀ = Except.ok d →
      ((∃ extra, (contentsAt 1 d).Perm (contentsAt 0 d ++ extra)) ∨
        contentsAt 1 d = []) := by
  intro es
  induction es with
  | nil =>
    intro d₀ _ hJ d hf
    rw [List.foldlM_nil] at hf
    cases hf
    exact hJ.2.2.2 (by simp) (by simp)
  | cons e es ih =>
    intro d₀ hnd hJ d hf
    rw [List.foldlM_cons] at hf
    cases haz : addZoneEntry n c d₀ e with
    | error err =>
      rw [haz] at hf
      cases hf
    | ok d₁ =>
      rw [haz] at hf
      rw [List.map_cons] at hnd
      exact ih d₁ (List.nodup_cons.1 hnd).2
        (zoneInv_step n c (List.nodup_cons.1 hnd).1 hJ haz) d hf

/-- C5 (confirmed): for a host descriptor (addresses map with unique
integer zone keys), the suppression step removes the zone-1 record set
from the dictionary exactly when the zone-0 and zone-1 record sets are
both non-empty and carry the same addresses (as a multiset); when they
differ, the zone-1 entry is kept and its records are emitted. -/
theorem claim5_zone1_suppression (name : String) (comment : Option String)
    (entries : List (Int × List IP)) (d : ZoneDict)
    (hnodup : (entries.map Prod.fst).Nodup)
    (h : buildRecords name comment entries = Except.ok d) :
    (dictMem 1 d = true ∧ dictMem 1 (suppressZone1 d) = false) ↔
      (dictGet 0 d ≠ [] ∧ dictGet 1 d ≠ [] ∧
        ((dictGet 0 d).map (fun r => r.content)).Perm
          ((dictGet 1 d).map (fun r => r.content))) := by
  have hP := zoneInv_final name comment entries [] hnodup (zoneInvariant_nil entries) d h
  constructor
  · rintro ⟨hmem, hmem'⟩
    unfold suppressZone1 at hmem'
    by_cases hcond : dictMem 0 d = true ∧ dictMem 1 d = true ∧
        (dictGet 0 d).length = (dictGet 1 d).length ∧ (dictGet 1 d).length ≠ 0
    · obtain ⟨_, _, hlen, hne⟩ := hcond
      have hg1 : dictGet 1 d ≠ [] := fun hh => hne (by rw [hh]; rfl)
      have hg0 : dictGet 0 d ≠ [] := by
        intro hh
        rw [hh] at hlen
        exact hne hlen.symm
      rcases hP with ⟨extra, hperm⟩ | hnil
      · have hlens := hperm.length_eq
        rw [List.length_append] at hlens
        unfold contentsAt at hlens hperm
        rw [List.length_map, List.length_map] at hlens
        have hextra : extra = [] := by
          rw [← hlen] at hlens
          have : extra.length = 0 := by omega
          exact List.length_eq_zero.1 this
        subst hextra
        rw [List.append_nil] at hperm
        exact ⟨hg0, hg1, hperm.symm⟩
      · unfold contentsAt at hnil
        rw [List.map_eq_nil_iff] at hnil
        exact absurd hnil hg1
    · rw [if_neg hcond] at hmem'
      rw [hmem] at hmem'
      cases hmem'
  · rintro ⟨hg0, hg1, hperm⟩
    have hmem1 : dictMem 1 d = true := dictMem_of_dictGet_ne_nil 1 d hg1
    have hmem0 : dictMem 0 d = true := dictMem_of_dictGet_ne_nil 0 d hg0
    have hlen : (dictGet 0 d).length = (dictGet 1 d).length := by
      have hh := hperm.length_eq
      rw [List.length_map, List.length_map] at hh
      exact hh
    have hne : (dictGet 1 d).length ≠ 0 := by
      intro hh
      exact hg1 (List.length_eq_zero.1 hh)
    refine ⟨hmem1, ?_⟩
    unfold suppressZone1
    rw [if_pos ⟨hmem0, hmem1, hlen, hne⟩]
    exact dictMem_dictDel_self 1 d

/-- The host record of `webDict` at a given generated name. -/
def webRec (nm : String) : DNSRecord :=
  { name := nm, type := RecordType.A, content := "10.0.0.1", ttl := 43200,
    comment := some "TETRAB" }

/-- The zone dictionary built for host `{name: "web", addresses:
["10.0.0.1"]}` before suppression: the single zone-0 IPv4 address
replicates into zones 1 and 4, all three records carrying the zone-0
(source) TTL. -/
def webDict : ZoneDict :=
  [((0 : Int), [webRec "web.0"]), ((1 : Int), [webRec "web.1"]),
   ((4 : Int), [webRec "web.4"])]

theorem webDict_eq :
    buildRecords "web" (some "TETRAB") [((0 : Int), [IP.v4 "10.0.0.1"])] =
      Except.ok webDict := rfl

theorem claim5_zone1_suppression_witness :
    (([((0 : Int), [IP.v4 "10.0.0.1"])].map Prod.fst).Nodup ∧
     buildRecords "web" (some "TETRAB") [((0 : Int), [IP.v4 "10.0.0.1"])] =
       Except.ok webDict) ∧
    ((dictMem 1 webDict = true ∧ dictMem 1 (suppressZone1 webDict) = false) ↔
      (dictGet 0 webDict ≠ [] ∧ dictGet 1 webDict ≠ [] ∧
        ((dictGet 0 webDict).map (fun r => r.content)).Perm
          ((dictGet 1 webDict).map (fun r => r.content)))) :=
  ⟨⟨by decide, webDict_eq⟩,
   claim5_zone1_suppression "web" (some "TETRAB") _ webDict (by decide) webDict_eq⟩

theorem claim6_ttl_discipline_witness :
    (buildRecords "web" (some "TETRAB") [((0 : Int), [IP.v4 "10.0.0.1"])] =
      Except.ok webDict) ∧
    (∀ e ∈ webDict, ∀ r ∈ e.2,
      (r.ttl = TTL_HOST ∨ r.ttl = TTL_EXT) ∧
      (e.1 = 0 → r.ttl = TTL_HOST) ∧ (10 ≤ e.1 → r.ttl = TTL_EXT)) :=
  ⟨webDict_eq, claim6_ttl_discipline "web" (some "TETRAB") _ webDict webDict_eq⟩
